import Mathlib

/-!
Verification of the tabular reconciliation / sort-filter core of the
sportscard-inventory application (`src/app/set/[slug]/page.tsx` and
`src/app/page.tsx`).

Modelling conventions:
* Cell values are strings, modelled as `List Char` (`Str`).
* JavaScript numbers are modelled exactly, as sign-magnitude decimals
  (`JsNum.fin sign magnitude`, the magnitude a nonnegative
  mantissa-times-power-of-ten pair `Mag`) plus signed infinities; `NaN`
  is `Option.none` at the parser level.  Sign-magnitude keeps
  JavaScript's distinction between `0` and `-0`, which is observable
  through `Intl` currency formatting of negative near-zero values.  All
  executable definitions use only integer arithmetic so that they
  evaluate on concrete inputs; the rational value of a magnitude
  (`Mag.val`, `JsNum.val`) appears in specifications and proofs.
* `Intl.NumberFormat(undefined, {style:"currency", currency:"USD",
  maximumFractionDigits:2})` is modelled for the en-US default locale:
  leading minus sign, dollar sign, thousands grouping with commas, and
  exactly two fraction digits (half-away-from-zero rounding).
* `String.prototype.trim` / `Number()` whitespace skipping is modelled
  for ASCII whitespace; `toLowerCase` via `Char.toLower`; both suffice
  for every vocabulary string the program compares against.
-/

abbrev Str := List Char

/-- Character list of a string literal. -/
def cs (s : String) : Str := s.data

/-- ASCII whitespace recognised by the JS trimming model. -/
def isWsCh (c : Char) : Bool := c = ' ' || c = '\t' || c = '\n' || c = '\r'

/-- Decimal digit test. -/
def isDigitCh (c : Char) : Bool := 48 ≤ c.toNat && c.toNat ≤ 57

/-- Value of a decimal digit character. -/
def digitVal (c : Char) : ℕ := c.toNat - 48

/-- Model of `String.prototype.trim()`. -/
def jsTrim (l : Str) : Str :=
  ((l.dropWhile isWsCh).reverse.dropWhile isWsCh).reverse

/-- Model of `String.prototype.toLowerCase()` (ASCII-adequate). -/
def lowerStr (l : Str) : Str := l.map Char.toLower

/-- Source `stripCurrency`: `String(val).replace(/[^0-9.-]/g, "")`. -/
def stripCurrency (val : Str) : Str :=
  val.filter (fun c => isDigitCh c || c = '.' || c = '-')

/-- Nonnegative decimal magnitude `man * 10 ^ ex`, exact. -/
structure Mag where
  man : ℕ
  ex : ℤ
  deriving DecidableEq, Repr

/-- Rational value of a magnitude. -/
def Mag.val (d : Mag) : ℚ := (d.man : ℚ) * 10 ^ d.ex

/-- A JavaScript number value that is not `NaN`: finite sign-magnitude
decimal or a signed infinity (`true` = negative). -/
inductive JsNum
  | fin : Bool → Mag → JsNum
  | inf : Bool → JsNum
  deriving DecidableEq, Repr

/-- Rational value of a finite JS number (infinities mapped to 0;
callers case on finiteness first). -/
def JsNum.val : JsNum → ℚ
  | .fin sg d => if sg then -d.val else d.val
  | .inf _ => 0

/-- Horner evaluation of most-significant-first decimal digits. -/
def digitsVal (l : Str) : ℕ := l.foldl (fun a c => 10 * a + digitVal c) 0

/-- Exponent part of a JS decimal literal (after the `e`). -/
def parseExp (l : Str) : Option ℤ :=
  match l with
  | [] => none
  | c :: rest =>
    if c = '+' then
      if rest.isEmpty then none
      else if rest.all isDigitCh then some (digitsVal rest) else none
    else if c = '-' then
      if rest.isEmpty then none
      else if rest.all isDigitCh then some (-(digitsVal rest : ℤ)) else none
    else if (c :: rest).all isDigitCh then some (digitsVal (c :: rest)) else none

/-- Unsigned JS decimal literal: `digits [. digits] [e digits]` or
`. digits [e digits]`, value as an exact decimal magnitude. -/
def parseUnsignedDec (l : Str) : Option Mag :=
  let ip := l.takeWhile isDigitCh
  let rest1 := l.dropWhile isDigitCh
  match rest1 with
  | [] => if ip.isEmpty then none else some ⟨digitsVal ip, 0⟩
  | '.' :: rest2 =>
    let fp := rest2.takeWhile isDigitCh
    let rest3 := rest2.dropWhile isDigitCh
    if ip.isEmpty && fp.isEmpty then none
    else
      let man := digitsVal ip * 10 ^ fp.length + digitsVal fp
      match rest3 with
      | [] => some ⟨man, -(fp.length : ℤ)⟩
      | e :: rest4 =>
        if e = 'e' ∨ e = 'E' then
          (parseExp rest4).map (fun k => ⟨man, k - fp.length⟩)
        else none
  | e :: rest4 =>
    if ip.isEmpty then none
    else if e = 'e' ∨ e = 'E' then
      (parseExp rest4).map (fun k => ⟨digitsVal ip, k⟩)
    else none

/-- Hexadecimal digit test. -/
def isHexCh (c : Char) : Bool :=
  isDigitCh c || ('a' ≤ c && c ≤ 'f') || ('A' ≤ c && c ≤ 'F')

/-- Octal digit test. -/
def isOctCh (c : Char) : Bool := 48 ≤ c.toNat && c.toNat ≤ 55

/-- Binary digit test. -/
def isBinCh (c : Char) : Bool := c = '0' || c = '1'

/-- Value of a hexadecimal digit character. -/
def hexVal (c : Char) : ℕ :=
  if isDigitCh c then digitVal c
  else if 'a' ≤ c && c ≤ 'f' then c.toNat - 87
  else c.toNat - 55

/-- Horner evaluation in an arbitrary radix. -/
def radixVal (r : ℕ) (l : Str) : ℕ := l.foldl (fun a c => r * a + hexVal c) 0

/-- The characters of the literal `Infinity`. -/
def infinityChars : Str := ['I', 'n', 'f', 'i', 'n', 'i', 't', 'y']

/-- Signed part of a JS numeric string: `Infinity` or a decimal literal. -/
def parseSigned (sg : Bool) (l : Str) : Option JsNum :=
  if l = infinityChars then some (.inf sg)
  else (parseUnsignedDec l).map (fun d => .fin sg d)

/-- Model of JavaScript `Number(string)`: `none` is `NaN`.  Accepts the
empty string as `+0`, signed decimal/`Infinity` literals, and unsigned
`0x`/`0o`/`0b` integer literals, after trimming whitespace. -/
def jsParse (s : Str) : Option JsNum :=
  match jsTrim s with
  | [] => some (.fin false ⟨0, 0⟩)
  | '+' :: rest => parseSigned false rest
  | '-' :: rest => parseSigned true rest
  | '0' :: c :: rest =>
    if c = 'x' ∨ c = 'X' then
      if !rest.isEmpty && rest.all isHexCh then some (.fin false ⟨radixVal 16 rest, 0⟩) else none
    else if c = 'o' ∨ c = 'O' then
      if !rest.isEmpty && rest.all isOctCh then some (.fin false ⟨radixVal 8 rest, 0⟩) else none
    else if c = 'b' ∨ c = 'B' then
      if !rest.isEmpty && rest.all isBinCh then some (.fin false ⟨radixVal 2 rest, 0⟩) else none
    else parseSigned false ('0' :: c :: rest)
  | other => parseSigned false other

/-- Decimal digit character of a value below 10. -/
def digitChar (n : ℕ) : Char := Char.ofNat (48 + n)

/-- Most-significant-first decimal digits, fuel-structured so that the
definition reduces by `decide`. -/
def natDigitsAux : ℕ → ℕ → Str
  | 0, _ => []
  | fuel + 1, n => if n < 10 then [digitChar n] else natDigitsAux fuel (n / 10) ++ [digitChar (n % 10)]

/-- Decimal digits of a natural number (never empty, no leading zeros). -/
def natDigits (n : ℕ) : Str := natDigitsAux (n + 1) n

/-- Insert a comma before a character whenever a positive multiple of
three characters has been produced (input least-significant-first). -/
def group3Aux : ℕ → Str → Str
  | _, [] => []
  | k, c :: rest =>
    if 0 < k ∧ k % 3 = 0 then ',' :: c :: group3Aux (k + 1) rest
    else c :: group3Aux (k + 1) rest

/-- Thousands grouping of a digit string, commas every three digits
counted from the right. -/
def group3 (l : Str) : Str := (group3Aux 0 l.reverse).reverse

/-- Two fixed decimal digits of a value below 100. -/
def pad2 (r : ℕ) : Str := [digitChar (r / 10), digitChar (r % 10)]

/-- Cents of a magnitude: `⌊val * 100 + 1/2⌋`, the half-away-from-zero
rounding `Intl.NumberFormat` applies to a nonnegative value, computed
with integer arithmetic only. -/
def Mag.cents (d : Mag) : ℕ :=
  if 0 ≤ d.ex + 2 then d.man * 10 ^ (d.ex + 2).toNat
  else (2 * d.man + 10 ^ (-(d.ex + 2)).toNat) / (2 * 10 ^ (-(d.ex + 2)).toNat)

/-- en-US `Intl` USD formatting of a finite sign-magnitude value. -/
def formatCurrencyUSD (sg : Bool) (d : Mag) : Str :=
  let c := d.cents
  (if sg then ['-'] else []) ++ '$' :: (group3 (natDigits (c / 100)) ++ '.' :: pad2 (c % 100))

/-- en-US `Intl` USD formatting of any non-`NaN` JS number. -/
def formatCurrencyJs : JsNum → Str
  | .fin sg d => formatCurrencyUSD sg d
  | .inf sg => (if sg then ['-'] else []) ++ ['$', '∞']

/-- Source `toCurrency`: strip, `Number`, empty string on `NaN`, else
`Intl` currency format. -/
def toCurrency (val : Str) : Str :=
  match jsParse (stripCurrency val) with
  | none => []
  | some n => formatCurrencyJs n

example : jsParse (cs "") = some (.fin false ⟨0, 0⟩) := by decide
example : jsParse (cs "  7.5 ") = some (.fin false ⟨75, -1⟩) := by decide
example : jsParse (cs "-0") = some (.fin true ⟨0, 0⟩) := by decide
example : jsParse (cs "1.2.3") = none := by decide
example : jsParse (cs "-") = none := by decide
example : jsParse (cs "5.") = some (.fin false ⟨5, 0⟩) := by decide
example : jsParse (cs ".5e1") = some (.fin false ⟨5, 1 - 1⟩) := by decide
example : jsParse (cs "0x1A") = some (.fin false ⟨26, 0⟩) := by decide
example : jsParse (cs "Infinity") = some (.inf false) := by decide
example : jsParse (cs "5 USD") = none := by decide
example : toCurrency (cs "1234.5") = cs "$1,234.50" := by decide
example : toCurrency (cs "abc") = cs "$0.00" := by decide
example : toCurrency (cs "-5") = cs "-$5.00" := by decide
example : toCurrency (cs "1.2.3") = cs "" := by decide
example : toCurrency (cs "-0.004") = cs "-$0.00" := by decide
example : toCurrency (cs "1234567.891") = cs "$1,234,567.89" := by decide

/-! ### The canonical row schema and the Field Normalizer -/

/-- The fourteen expected columns, as an enumeration. -/
inductive Header
  | cardNumber | description | owned | rawGrade | graded | gradingCompany
  | grade | cost | value | targetPrice | salePrice | datePurchased
  | purchasedFrom | uploadImages
  deriving DecidableEq, Repr

/-- Column title of each header, exactly as in `EXPECTED_HEADERS`. -/
def headerName : Header → Str
  | .cardNumber => cs "Card #"
  | .description => cs "Description"
  | .owned => cs "Owned"
  | .rawGrade => cs "Raw Grade"
  | .graded => cs "Graded"
  | .gradingCompany => cs "Grading Company"
  | .grade => cs "Grade"
  | .cost => cs "Cost"
  | .value => cs "Value"
  | .targetPrice => cs "Target Price"
  | .salePrice => cs "Sale Price"
  | .datePurchased => cs "Date Purchased"
  | .purchasedFrom => cs "Purchased From"
  | .uploadImages => cs "Upload Image(s)"

/-- The headers in display order. -/
def headerList : List Header :=
  [.cardNumber, .description, .owned, .rawGrade, .graded, .gradingCompany,
   .grade, .cost, .value, .targetPrice, .salePrice, .datePurchased,
   .purchasedFrom, .uploadImages]

/-- Source `EXPECTED_HEADERS`. -/
def EXPECTED_HEADERS : List Str := headerList.map headerName

/-- Source `CURRENCY_FIELDS`. -/
def CURRENCY_FIELDS : List Header := [.cost, .value, .targetPrice, .salePrice]

/-- Source `RAW_GRADES` vocabulary. -/
def RAW_GRADES : List Str :=
  [[], cs "Gem Mint", cs "Mint", cs "NM-MT", cs "NM", cs "EXMT", cs "EX",
   cs "VG-EX", cs "VG", cs "G", cs "P"]

/-- Text of the half-grade `k/2` as the source renders it:
`toFixed(1)` with a trailing `.0` dropped. -/
def halfGradeStr (k : ℕ) : Str :=
  if k % 2 = 0 then natDigits (k / 2) else natDigits (k / 2) ++ ['.', '5']

/-- Source `GRADES_NUMERIC`: blank followed by `10, 9.5, …, 1`. -/
def GRADES_NUMERIC : List Str :=
  [] :: (List.range 19).map (fun i => halfGradeStr (20 - i))

/-- One canonical row; all fields are stored as display text. -/
structure CanonicalRow where
  cardNumber : Str
  description : Str
  owned : Str
  rawGrade : Str
  graded : Str
  gradingCompany : Str
  grade : Str
  cost : Str
  value : Str
  targetPrice : Str
  salePrice : Str
  datePurchased : Str
  purchasedFrom : Str
  imageRefs : Str
  deriving DecidableEq, Repr

/-- Read the cell of a row under a header. -/
def getField (r : CanonicalRow) : Header → Str
  | .cardNumber => r.cardNumber
  | .description => r.description
  | .owned => r.owned
  | .rawGrade => r.rawGrade
  | .graded => r.graded
  | .gradingCompany => r.gradingCompany
  | .grade => r.grade
  | .cost => r.cost
  | .value => r.value
  | .targetPrice => r.targetPrice
  | .salePrice => r.salePrice
  | .datePurchased => r.datePurchased
  | .purchasedFrom => r.purchasedFrom
  | .uploadImages => r.imageRefs

/-- Replace the cell of a row under a header. -/
def setField (r : CanonicalRow) (h : Header) (v : Str) : CanonicalRow :=
  match h with
  | .cardNumber => { r with cardNumber := v }
  | .description => { r with description := v }
  | .owned => { r with owned := v }
  | .rawGrade => { r with rawGrade := v }
  | .graded => { r with graded := v }
  | .gradingCompany => { r with gradingCompany := v }
  | .grade => { r with grade := v }
  | .cost => { r with cost := v }
  | .value => { r with value := v }
  | .targetPrice => { r with targetPrice := v }
  | .salePrice => { r with salePrice := v }
  | .datePurchased => { r with datePurchased := v }
  | .purchasedFrom => { r with purchasedFrom := v }
  | .uploadImages => { r with imageRefs := v }

/-- A raw imported record: association list from header text to cell
text; an absent key reads as blank (`r[h] ?? ""`). -/
def recordGet (r : List (Str × Str)) (h : Str) : Str :=
  match r.find? (fun p => p.1 == h) with
  | some p => p.2
  | none => []

/-- Lower-case spellings mapped to `"Yes"`. -/
def YES_WORDS : List Str := [cs "yes", cs "y", cs "true", cs "1"]

/-- Lower-case spellings mapped to `"No"`. -/
def NO_WORDS : List Str := [cs "no", cs "n", cs "false", cs "0"]

/-- Owned/Graded coercion from `handleFileChosen`. -/
def normYesNo (v : Str) : Str :=
  let w := lowerStr (jsTrim v)
  if YES_WORDS.contains w then cs "Yes"
  else if NO_WORDS.contains w then cs "No"
  else []

/-- Raw-grade coercion: exact vocabulary match after trimming, else blank. -/
def normRawGrade (v : Str) : Str :=
  let rg := jsTrim v
  if RAW_GRADES.contains rg then rg else []

/-- Model of `Math.round(2 * n)` as an integer: `⌊2v + 1/2⌋` computed
with integer arithmetic; infinities become sentinels beyond the grade
clamp range, matching `Math.round(±Infinity)` followed by clamping. -/
def jsRound2 : JsNum → ℤ
  | .fin sg d =>
    let sm : ℤ := if sg then -(d.man : ℤ) else (d.man : ℤ)
    if 0 ≤ d.ex then Int.ediv (4 * sm * 10 ^ d.ex.toNat + 1) 2
    else Int.ediv (4 * sm + 10 ^ (-d.ex).toNat) (2 * 10 ^ (-d.ex).toNat)
  | .inf sg => if sg then -100 else 100

/-- Source `normalizeNumericGrade`: trim, parse, round to the nearest
half, clamp to `[1, 10]` (tracked as twice the value in `[2, 20]`),
format, and keep only members of the numeric-grade vocabulary. -/
def normalizeNumericGrade (input : Str) : Str :=
  let s := jsTrim input
  if s.isEmpty then []
  else
    match jsParse s with
    | some n =>
      let k : ℤ := min 20 (max 2 (jsRound2 n))
      let asStr := halfGradeStr k.toNat
      if GRADES_NUMERIC.contains asStr then asStr else []
    | none => if GRADES_NUMERIC.contains s then s else []

/-- Currency-cell normalization from `handleFileChosen`: non-blank cells
whose stripped text is not `NaN` are reformatted, others kept. -/
def normCurrencyCell (raw : Str) : Str :=
  if (jsTrim raw).isEmpty then raw
  else
    let stripped := stripCurrency raw
    if (jsParse stripped).isSome then toCurrency stripped else raw

/-- Date normalization from `handleFileChosen`: a non-blank cell whose
digits number exactly eight is rewritten `MM/DD/YYYY`, else kept. -/
def normDate (raw : Str) : Str :=
  let d := jsTrim raw
  if d.isEmpty then raw
  else
    let digits := d.filter isDigitCh
    if digits.length = 8 then
      digits.take 2 ++ '/' :: ((digits.drop 2).take 2 ++ '/' :: digits.drop 4)
    else raw

/-- Card-number coercion: blanked when `Number(trimmed)` is `NaN`. -/
def normCardNumber (v : Str) : Str :=
  if (jsParse (jsTrim v)).isNone then [] else v

/-- Description coercion: blanked when it trims to nothing. -/
def normDescription (v : Str) : Str :=
  if (jsTrim v).isEmpty then [] else v

/-- The per-record body of `handleFileChosen`'s `cleaned` map: read each
expected column (absent keys as blank) and apply the field rules. -/
def normalizeRow (r : List (Str × Str)) : CanonicalRow where
  cardNumber := normCardNumber (recordGet r (cs "Card #"))
  description := normDescription (recordGet r (cs "Description"))
  owned := normYesNo (recordGet r (cs "Owned"))
  rawGrade := normRawGrade (recordGet r (cs "Raw Grade"))
  graded := normYesNo (recordGet r (cs "Graded"))
  gradingCompany := recordGet r (cs "Grading Company")
  grade := normalizeNumericGrade (recordGet r (cs "Grade"))
  cost := normCurrencyCell (recordGet r (cs "Cost"))
  value := normCurrencyCell (recordGet r (cs "Value"))
  targetPrice := normCurrencyCell (recordGet r (cs "Target Price"))
  salePrice := normCurrencyCell (recordGet r (cs "Sale Price"))
  datePurchased := normDate (recordGet r (cs "Date Purchased"))
  purchasedFrom := recordGet r (cs "Purchased From")
  imageRefs := recordGet r (cs "Upload Image(s)")

/-- A normalized row rendered back as a record keyed by the expected
headers (what a second normalization pass would read). -/
def toRaw (row : CanonicalRow) : List (Str × Str) :=
  headerList.map (fun h => (headerName h, getField row h))

/-- Join with a comma and a space, as `missing.join(", ")`. -/
def joinComma : List Str → Str
  | [] => []
  | [x] => x
  | x :: rest => x ++ cs ", " ++ joinComma rest

/-- The import error text for missing columns. -/
def missingColumnsMsg (missing : List Str) : Str :=
  cs "CSV is missing required columns: " ++ joinComma missing ++ cs "."

/-- Result of one file import: the error list and the rows passed to
`setRows` (the error path runs `setRows([])`). -/
structure ImportOutcome where
  errors : List Str
  rows : List CanonicalRow
  deriving DecidableEq, Repr

/-- The `complete` callback of `handleFileChosen`: reject the whole
batch when any expected header is absent, else normalize every record. -/
def handleFileChosen (incomingHeaders : List Str)
    (records : List (List (Str × Str))) : ImportOutcome :=
  let missing := EXPECTED_HEADERS.filter (fun h => !(incomingHeaders.contains h))
  if missing.isEmpty then ⟨[], records.map normalizeRow⟩
  else ⟨[missingColumnsMsg missing], []⟩

example : normalizeNumericGrade (cs "7.3") = cs "7.5" := by decide
example : normalizeNumericGrade (cs "11") = cs "10" := by decide
example : normalizeNumericGrade (cs "0") = cs "1" := by decide
example : normalizeNumericGrade (cs "-3") = cs "1" := by decide
example : normalizeNumericGrade (cs "9.5") = cs "9.5" := by decide
example : normalizeNumericGrade (cs "Infinity") = cs "10" := by decide
example : normalizeNumericGrade (cs "gem") = cs "" := by decide
example : normYesNo (cs " TRUE ") = cs "Yes" := by decide
example : normYesNo (cs "0") = cs "No" := by decide
example : normYesNo (cs "maybe") = cs "" := by decide
example : normDate (cs "12-25-2024") = cs "12/25/2024" := by decide
example : normDate (cs "Dec 25") = cs "Dec 25" := by decide
example : normCardNumber (cs "007") = cs "007" := by decide
example : normCardNumber (cs "abc") = cs "" := by decide
example : normCardNumber (cs "") = cs "" := by decide
example : normCurrencyCell (cs " ") = cs " " := by decide
example : normCurrencyCell (cs "1.2.3") = cs "1.2.3" := by decide
example : normCurrencyCell (cs "$1234.5") = cs "$1,234.50" := by decide

/-! ### Sort/Filter Engine, aggregates, cell edits, autosave -/

/-- Sort direction. -/
inductive SortDir
  | asc | desc
  deriving DecidableEq, Repr

/-- JS `===` zero test on a number (`-0 === 0`). -/
def jsIsZero : JsNum → Bool
  | .fin _ d => d.man = 0
  | .inf _ => false

/-- Integer comparison of two magnitudes after aligning exponents. -/
def Mag.cmp (a b : Mag) : Ordering :=
  let e := min a.ex b.ex
  compare (a.man * 10 ^ (a.ex - e).toNat) (b.man * 10 ^ (b.ex - e).toNat)

/-- JS relational comparison of two non-`NaN` numbers (`-0` equals `0`,
infinities at the ends). -/
def JsNum.cmp : JsNum → JsNum → Ordering
  | .inf s, .inf t => if s = t then .eq else if s then .lt else .gt
  | .inf s, .fin _ _ => if s then .lt else .gt
  | .fin _ _, .inf t => if t then .gt else .lt
  | .fin s1 d1, .fin s2 d2 =>
    if d1.man = 0 && d2.man = 0 then .eq
    else if d1.man = 0 then (if s2 then .gt else .lt)
    else if d2.man = 0 then (if s1 then .lt else .gt)
    else
      match s1, s2 with
      | true, false => .lt
      | false, true => .gt
      | false, false => d1.cmp d2
      | true, true => d2.cmp d1

/-- The comparator's currency-cell value: outer `none` is JS `null`
(blank after stripping), inner `none` is `NaN`. -/
def curValOf (field : Header) (r : CanonicalRow) : Option (Option JsNum) :=
  let s := stripCurrency (getField r field)
  if s.isEmpty then none else some (jsParse s)

/-- The `empty/zero` test of the currency comparator:
`an === null || an === 0`. -/
def curEmptyZero : Option (Option JsNum) → Bool
  | none => true
  | some none => false
  | some (some n) => jsIsZero n

/-- JS `<` on the comparator's values: `null` coerces to `+0`, any
comparison with `NaN` is false. -/
def jsLtOpt (a b : Option (Option JsNum)) : Bool :=
  let a1 := match a with | none => some (JsNum.fin false ⟨0, 0⟩) | some v => v
  let b1 := match b with | none => some (JsNum.fin false ⟨0, 0⟩) | some v => v
  match a1, b1 with
  | some x, some y => x.cmp y = .lt
  | _, _ => false

/-- Source `asNumberForSort`: a finite numeric key for `Grade`,
currency fields and `Card #`, `none` (null) otherwise. -/
def asNumberForSort (field : Header) (r : CanonicalRow) : Option JsNum :=
  if field = .grade then
    let s := jsTrim (getField r .grade)
    if s.isEmpty then none
    else match jsParse s with
      | some (.fin sg d) => some (.fin sg d)
      | _ => none
  else if CURRENCY_FIELDS.contains field then
    let s := stripCurrency (getField r field)
    if s.isEmpty then none
    else match jsParse s with
      | some (.fin sg d) => some (.fin sg d)
      | _ => none
  else if field = .cardNumber then
    match jsParse (jsTrim (getField r .cardNumber)) with
    | some (.fin sg d) => some (.fin sg d)
    | _ => none
  else none

/-- Code-point comparison of two character lists; the model of
`localeCompare` on the already lower-cased sort text. -/
def strCmp : Str → Str → Ordering
  | [], [] => .eq
  | [], _ :: _ => .lt
  | _ :: _, [] => .gt
  | a :: as1, b :: bs1 =>
    match compare a.toNat b.toNat with
    | .eq => strCmp as1 bs1
    | o => o

/-- Multiply an ordering by the direction sign, as `result * dir`. -/
def applyDir (dir : SortDir) (o : Ordering) : Ordering :=
  match dir with
  | .asc => o
  | .desc => o.swap

/-- The sort comparator `cmp` from `displayRows`, on `(row, origIndex)`
pairs.  Positive JS results are `Ordering.gt` (a sorts after b). -/
def cmpRows (sortKey : Header) (dir : SortDir)
    (a b : CanonicalRow × ℕ) : Ordering :=
  if CURRENCY_FIELDS.contains sortKey then
    let an := curValOf sortKey a.1
    let bn := curValOf sortKey b.1
    let aEZ := curEmptyZero an
    let bEZ := curEmptyZero bn
    if aEZ ≠ bEZ then (if aEZ then .gt else .lt)
    else if an.isNone && bn.isNone then .eq
    else if jsLtOpt an bn then (if dir = .asc then .lt else .gt)
    else if jsLtOpt bn an then (if dir = .asc then .gt else .lt)
    else .eq
  else
    let an := asNumberForSort sortKey a.1
    let bn := asNumberForSort sortKey b.1
    if an.isSome || bn.isSome then
      if an.isNone && bn.isNone then .eq
      else
        match an, bn with
        | none, _ => .gt
        | _, none => .lt
        | some x, some y =>
          if x.cmp y = .lt then (if dir = .asc then .lt else .gt)
          else if y.cmp x = .lt then (if dir = .asc then .gt else .lt)
          else .eq
    else
      let ta := lowerStr (getField a.1 sortKey)
      let tb := lowerStr (getField b.1 sortKey)
      if ta.isEmpty ≠ tb.isEmpty then (if ta.isEmpty then .gt else .lt)
      else applyDir dir (strCmp ta tb)

/-- Insert into a sorted list, passing over exactly the elements that
compare strictly below; ties keep the inserted (earlier) element first,
which makes the sort stable like `Array.prototype.sort`. -/
def insertCmp (cmp : α → α → Ordering) (a : α) : List α → List α
  | [] => [a]
  | b :: l => if cmp a b = .gt then b :: insertCmp cmp a l else a :: b :: l

/-- Stable insertion sort by an `Ordering` comparator. -/
def sortByCmp (cmp : α → α → Ordering) : List α → List α
  | [] => []
  | a :: l => insertCmp cmp a (sortByCmp cmp l)

/-- Rows paired with their Row Store positions. -/
def pairWithIdx (rows : List CanonicalRow) : List (CanonicalRow × ℕ) :=
  rows.enum.map (fun p => (p.2, p.1))

/-- The filter stage of `displayRows`: the needed-only predicate keeps
rows whose `Owned` cell is not `"Yes"`. -/
def filteredPairs (rows : List CanonicalRow) (showNeededOnly : Bool) :
    List (CanonicalRow × ℕ) :=
  if showNeededOnly then
    (pairWithIdx rows).filter (fun p => !(getField p.1 .owned == cs "Yes"))
  else pairWithIdx rows

/-- Source `displayRows`: pair rows with original indices, apply the
needed-only filter, then the comparator when a sort key is active. -/
def displayRows (rows : List CanonicalRow) (showNeededOnly : Bool)
    (sortKey : Option Header) (dir : SortDir) : List (CanonicalRow × ℕ) :=
  match sortKey with
  | none => filteredPairs rows showNeededOnly
  | some k => sortByCmp (cmpRows k dir) (filteredPairs rows showNeededOnly)

/-- Source `computeOwnedStats` (count, percentage). -/
def computeOwnedStats (rows : List CanonicalRow) : ℕ × ℚ :=
  let total := rows.length
  let owned := (rows.filter (fun r => r.owned == cs "Yes")).length
  (owned, if total = 0 then 0 else ((owned : ℚ) / total) * 100)

/-- Source `toNumber` from the home page: delete `$` and `,`, trim,
`Number`, and return 0 unless the result is finite.  Cells hold text in
this model, so only the string branch of the source is represented. -/
def toNumber (v : Str) : ℚ :=
  let cleaned := jsTrim (v.filter (fun c => !(c = '$' || c = ',')))
  match jsParse cleaned with
  | some (.fin sg d) => (JsNum.fin sg d).val
  | _ => 0

/-- Totals of `computeFinancials`. -/
structure Financials where
  totalCost : ℚ
  totalValue : ℚ
  gainLoss : ℚ
  deriving Repr

/-- Source `computeFinancials`: reduce the rows with `toNumber` on the
`Cost` and `Value` cells; `gainLoss` is the difference. -/
def computeFinancials (rows : List CanonicalRow) : Financials :=
  let totalCost := rows.foldl (fun acc r => acc + toNumber r.cost) 0
  let totalValue := rows.foldl (fun acc r => acc + toNumber r.value) 0
  ⟨totalCost, totalValue, totalValue - totalCost⟩

/-- Source `autoSlashDate`: keep the first eight digits, slashing after
positions two and four. -/
def autoSlashDate (raw : Str) : Str :=
  let d := (raw.filter isDigitCh).take 8
  if d.length ≤ 2 then d
  else if d.length ≤ 4 then d.take 2 ++ '/' :: d.drop 2
  else d.take 2 ++ '/' :: ((d.drop 2).take 2 ++ '/' :: d.drop 4)

/-- Per-field policy of `onChangeCell` applied to one row. -/
def updateCellValue (field : Header) (v : Str) (r : CanonicalRow) : CanonicalRow :=
  if field = .purchasedFrom ∧ 50 < v.length then setField r field (v.take 50)
  else if CURRENCY_FIELDS.contains field then setField r field v
  else if field = .datePurchased then setField r field (autoSlashDate v)
  else setField r field v

/-- Source `onChangeCell` on the Row Store: replace row `index` by its
update (an out-of-range index leaves the list unchanged; the UI only
passes indices of rendered rows). -/
def onChangeCell (rows : List CanonicalRow) (index : ℕ) (field : Header)
    (v : Str) : List CanonicalRow :=
  match rows.get? index with
  | some r => rows.set index (updateCellValue field v r)
  | none => rows

/-- The saved form of one set (`{title, year, brand, desc, rows}`). -/
structure SetPayload where
  title : Str
  year : Option ℕ
  brand : Str
  desc : Str
  rows : List CanonicalRow
  deriving DecidableEq, Repr

/-- One entry of the global index (`sc_sets_index`). -/
structure IndexEntry where
  slug : Str
  title : Str
  year : ℤ
  brand : Str
  desc : Str
  updatedAt : ℕ
  rowCount : ℕ
  ownedCount : ℕ
  ownedPct : ℚ

/-- The external key-value store: the global index plus one entry per
set slug. -/
structure KvStore where
  index : List IndexEntry
  sets : List (Str × SetPayload)

/-- `localStorage.setItem` on the per-set entries: overwrite the slug's
entry or append it. -/
def setAssoc (l : List (Str × SetPayload)) (k : Str) (v : SetPayload) :
    List (Str × SetPayload) :=
  match l with
  | [] => [(k, v)]
  | (k0, v0) :: rest => if k0 = k then (k, v) :: rest else (k0, v0) :: setAssoc rest k v

/-- Source `upsertIndexEntry`: replace the first entry with the same
slug, else push at the end. -/
def upsertIndexEntry (idx : List IndexEntry) (entry : IndexEntry) : List IndexEntry :=
  match idx with
  | [] => [entry]
  | e :: rest => if e.slug = entry.slug then entry :: rest else e :: upsertIndexEntry rest entry

/-- The editor state the autosave timer closure reads. -/
structure EditorState where
  slug : Str
  datasetTitle : Str
  year : Option ℕ
  brand : Str
  desc : Str
  rows : List CanonicalRow

/-- The timer callback of `scheduleAutoSave`: bail out while the set is
unnamed, otherwise write the payload and upsert the recomputed index
entry (`now` supplies `Date.now()`). -/
def autoSaveFire (now : ℕ) (st : EditorState)
    (nextRows : Option (List CanonicalRow)) (store : KvStore) : KvStore :=
  if st.slug.isEmpty || st.slug == cs "new" || st.datasetTitle.isEmpty then store
  else
    let rowsUsed := nextRows.getD st.rows
    let payload : SetPayload := ⟨st.datasetTitle, st.year, st.brand, st.desc, rowsUsed⟩
    let stats := computeOwnedStats rowsUsed
    let entry : IndexEntry :=
      ⟨st.slug, st.datasetTitle, (match st.year with | none => 0 | some y => (y : ℤ)),
       st.brand, st.desc, now, rowsUsed.length, stats.1, stats.2⟩
    ⟨upsertIndexEntry store.index entry, setAssoc store.sets st.slug payload⟩

/-- A row with all cells blank, for concrete instances. -/
def blankRow : CanonicalRow := ⟨[], [], [], [], [], [], [], [], [], [], [], [], [], []⟩

/-- A blank row with a given `Cost` cell. -/
def rowWithCost (v : Str) : CanonicalRow := { blankRow with cost := v }

example :
    (displayRows [rowWithCost (cs ""), rowWithCost (cs "$0.00"),
      rowWithCost (cs "$5.00"), rowWithCost (cs "$10.00")] false
      (some .cost) .desc).map (fun p => p.2) = [3, 2, 0, 1] := by decide
example :
    (displayRows [rowWithCost (cs ""), rowWithCost (cs "$0.00"),
      rowWithCost (cs "$5.00"), rowWithCost (cs "$10.00")] false
      (some .cost) .asc).map (fun p => p.2) = [2, 3, 0, 1] := by decide
example : autoSlashDate (cs "12252024") = cs "12/25/2024" := by decide
example : autoSlashDate (cs "122") = cs "12/2" := by decide

/-! ### Remaining definitions used by claim statements -/

/-- The Row Store contents after `handleFileChosen` completes: both the
error path (`setRows([])`) and the success path (`setRows(cleaned)`)
replace the prior rows, so the result never depends on them. -/
def rowsAfterImport (_prevRows : List CanonicalRow)
    (incomingHeaders : List Str) (records : List (List (Str × Str))) :
    List CanonicalRow :=
  (handleFileChosen incomingHeaders records).rows

/-- The specification's strip-then-parse rule for one currency cell,
the rule import normalization uses: strip all characters except digits,
`.` and `-`, then parse, non-numbers contributing 0. -/
def specStripParse (v : Str) : ℚ :=
  match jsParse (stripCurrency v) with
  | some (.fin sg d) => (JsNum.fin sg d).val
  | _ => 0

/-- The parsed rational of a currency cell under the comparator's view:
`none` when blank after stripping or `NaN`. -/
def curQ (field : Header) (r : CanonicalRow) : Option ℚ :=
  match curValOf field r with
  | some (some (.fin sg d)) => some ((JsNum.fin sg d).val)
  | _ => none

/-- The tie class of the currency comparator: all blank-or-zero rows
share class `none`; other rows are classed by their numeric value. -/
def curSortClass (field : Header) (r : CanonicalRow) : Option ℚ :=
  match curQ field r with
  | none => none
  | some q => if q = 0 then none else some q

/-- A currency cell the comparator can order: blank after stripping, or
parsed successfully by `Number`. -/
def CurCellOk (field : Header) (r : CanonicalRow) : Prop :=
  stripCurrency (getField r field) = [] ∨
    (jsParse (stripCurrency (getField r field))).isSome

instance (field : Header) (r : CanonicalRow) : Decidable (CurCellOk field r) := by
  unfold CurCellOk; infer_instance

/-- Concrete rows used by the claim instances. -/
def c1prevRow : CanonicalRow := { blankRow with description := cs "x" }

/-- Header list missing exactly `"Grade"`. -/
def headersNoGrade : List Str := EXPECTED_HEADERS.filter (fun h => !(h == cs "Grade"))

/-- Row whose card number the immutability claim targets. -/
def c9row : CanonicalRow := { blankRow with cardNumber := cs "1" }

/-- Row with a cost cell the two parsing rules disagree on. -/
def c8row : CanonicalRow := { blankRow with cost := cs "5 USD" }

/-- Rows whose middle cost cell strips to unparseable text (`NaN`). -/
def c4rows : List CanonicalRow :=
  [rowWithCost (cs "$5.00"), rowWithCost (cs "1.2.3"), rowWithCost (cs "$3.00")]

/-- Lexicographic comparison of a row's sort key: the `true` class
(blank or zero) sorts after everything; within a class, numeric order. -/
def keyCmpQ (x y : Bool × ℚ) : Ordering :=
  if x.1 = y.1 then compare x.2 y.2
  else if x.1 then .gt else .lt

/-- The currency comparator's key for one row: blank-or-zero rows
collapse to the `(true, 0)` class; other rows carry the
direction-adjusted numeric value. -/
def curKey (field : Header) (dir : SortDir) (r : CanonicalRow) : Bool × ℚ :=
  match curSortClass field r with
  | none => (true, 0)
  | some q => (false, if dir = .asc then q else -q)

/-! ### Shared helper lemmas -/

theorem stripCurrency_idem (l : Str) :
    stripCurrency (stripCurrency l) = stripCurrency l := by
  simp [stripCurrency, List.filter_filter]

theorem foldl_add_eq_sum (f : α → ℚ) (l : List α) (init : ℚ) :
    l.foldl (fun acc r => acc + f r) init = init + (l.map f).sum := by
  induction l generalizing init with
  | nil => simp
  | cons a t ih => simp [ih, add_assoc]

theorem insertCmp_perm (cmp : α → α → Ordering) (a : α) (l : List α) :
    List.Perm (insertCmp cmp a l) (a :: l) := by
  induction l with
  | nil => exact List.Perm.refl _
  | cons b t ih =>
    by_cases h : cmp a b = .gt
    · simpa [insertCmp, h] using (ih.cons b).trans (List.Perm.swap a b t)
    · simp [insertCmp, h]

theorem sortByCmp_perm (cmp : α → α → Ordering) (l : List α) :
    List.Perm (sortByCmp cmp l) l := by
  induction l with
  | nil => exact List.Perm.refl _
  | cons a t ih => exact (insertCmp_perm cmp a (sortByCmp cmp t)).trans (ih.cons a)

theorem mem_pairWithIdx {rows : List CanonicalRow} {p : CanonicalRow × ℕ}
    (hp : p ∈ pairWithIdx rows) : rows[p.2]? = some p.1 := by
  obtain ⟨q, hq, hqe⟩ := List.mem_map.mp hp
  have h2 : q.2 = p.1 := by rw [← hqe]
  have h1 : q.1 = p.2 := by rw [← hqe]
  have := List.mem_enum_iff_getElem?.mp hq
  rw [h1, h2] at this
  exact this

theorem filteredPairs_subset (rows : List CanonicalRow) (needed : Bool) :
    filteredPairs rows needed ⊆ pairWithIdx rows := by
  unfold filteredPairs
  cases needed
  · simp
  · simp [List.filter_subset]

/-! ### Claim C10: autosave is a no-op while the set is unnamed -/

/-- C10: while the slug is absent, equals `"new"`, or the dataset title
is blank, the autosave timer callback returns before writing: the
key-value store (per-set entries and global index) is unchanged. -/
theorem autosave_noop_when_unnamed (now : ℕ) (st : EditorState)
    (nextRows : Option (List CanonicalRow)) (store : KvStore)
    (h : st.slug = [] ∨ st.slug = cs "new" ∨ st.datasetTitle = []) :
    autoSaveFire now st nextRows store = store := by
  rcases h with h | h | h <;> simp [autoSaveFire, h]

/-- Witness: a state titled but still on the `"new"` slug performs no
write on a store holding one foreign set entry. -/
theorem autosave_noop_when_unnamed_witness :
    autoSaveFire 7 ⟨cs "new", cs "My Set", some 1953, cs "Topps", cs "d", []⟩
      none ⟨[], [(cs "other", ⟨cs "t", none, [], [], []⟩)]⟩ =
      ⟨[], [(cs "other", ⟨cs "t", none, [], [], []⟩)]⟩ :=
  autosave_noop_when_unnamed 7 _ none _ (Or.inr (Or.inl rfl))

/-! ### Claim C9: Card #/Description are not immutable in `onChangeCell` -/

/-- C9 counterexample: updating `Card #` through `onChangeCell` changes
the row, so the operation is not a no-op as claimed. -/
theorem onChangeCell_cardNumber_not_noop :
    onChangeCell [c9row] 0 .cardNumber (cs "999") ≠ [c9row] := by decide

/-- C9 amended: `onChangeCell` on `Card #` or `Description` stores the
given value like any other free-text field (the UI merely renders these
two columns read-only); rows other than the target are unchanged. -/
theorem onChangeCell_immutable_fields_overwrite (rows : List CanonicalRow)
    (i : ℕ) (field : Header) (v : Str) (r : CanonicalRow)
    (hf : field = .cardNumber ∨ field = .description)
    (hr : rows[i]? = some r) :
    (onChangeCell rows i field v)[i]? = some (setField r field v) ∧
    ∀ j, j ≠ i → (onChangeCell rows i field v)[j]? = rows[j]? := by
  have hupd : updateCellValue field v r = setField r field v := by
    rcases hf with hf | hf <;> subst hf <;>
      simp [updateCellValue, show CURRENCY_FIELDS.contains Header.cardNumber = false by decide,
        show CURRENCY_FIELDS.contains Header.description = false by decide]
  have hlt : i < rows.length := by
    have := List.getElem?_eq_some.mp hr
    exact this.1
  have hoc : onChangeCell rows i field v = rows.set i (setField r field v) := by
    simp [onChangeCell, List.get?_eq_getElem?, hr, hupd]
  constructor
  · rw [hoc]
    exact List.getElem?_set_eq_of_lt (setField r field v) hlt
  · intro j hj
    rw [hoc]
    exact List.getElem?_set_ne (fun he => hj he.symm)

/-- Witness for the amended C9 statement at a concrete row. -/
theorem onChangeCell_immutable_fields_overwrite_witness :
    (onChangeCell [c9row] 0 .cardNumber (cs "999"))[0]? =
      some (setField c9row .cardNumber (cs "999")) ∧
    ∀ j, j ≠ 0 → (onChangeCell [c9row] 0 .cardNumber (cs "999"))[j]? = [c9row][j]? :=
  onChangeCell_immutable_fields_overwrite [c9row] 0 .cardNumber (cs "999") c9row
    (Or.inl rfl) (by decide)

/-! ### Claim C7: the derived view points back into the Row Store -/

/-- C7: every `(row, originalIndex)` pair of the derived view satisfies
`rows[originalIndex] = row` for any filter switch, sort field and
direction — filtering and sorting never alter the index attached to a
surviving row, and the view is a pure function of the store. -/
theorem displayRows_pairs_point_into_store (rows : List CanonicalRow)
    (needed : Bool) (sortKey : Option Header) (dir : SortDir)
    (p : CanonicalRow × ℕ) (hp : p ∈ displayRows rows needed sortKey dir) :
    rows[p.2]? = some p.1 := by
  have hf : p ∈ filteredPairs rows needed := by
    cases sortKey with
    | none => exact hp
    | some k => exact ((sortByCmp_perm (cmpRows k dir) _).mem_iff).mp hp
  exact mem_pairWithIdx (filteredPairs_subset rows needed hf)

/-- Witness: a surviving pair of a sorted two-row view points at its
store position. -/
theorem displayRows_pairs_point_into_store_witness :
    [rowWithCost (cs "$5.00"), blankRow][(1 : ℕ)]? = some blankRow :=
  displayRows_pairs_point_into_store [rowWithCost (cs "$5.00"), blankRow] false
    (some .cost) .asc (blankRow, 1) (by decide)

/-! ### Claim C1: missing-header imports -/

/-- C1 counterexample: importing with the `"Grade"` header missing
clears a previously non-empty Row Store instead of leaving it
unchanged, because the error path runs `setRows([])`. -/
theorem import_missing_header_clears_store :
    rowsAfterImport [c1prevRow] headersNoGrade [] = [] ∧
    ([] : List CanonicalRow) ≠ [c1prevRow] := by decide

/-- C1 amended: when any expected header is absent the import reports
one error naming exactly the missing headers, produces no normalized
rows, and the Row Store is cleared to empty — hence unchanged precisely
when it was already empty, as on a first import. -/
theorem import_missing_headers_rejects (incomingHeaders : List Str)
    (records : List (List (Str × Str)))
    (h : ∃ x ∈ EXPECTED_HEADERS, x ∉ incomingHeaders) :
    (handleFileChosen incomingHeaders records).errors =
      [missingColumnsMsg (EXPECTED_HEADERS.filter (fun y => !(incomingHeaders.contains y)))] ∧
    (∀ y, y ∈ EXPECTED_HEADERS.filter (fun y => !(incomingHeaders.contains y)) ↔
      y ∈ EXPECTED_HEADERS ∧ y ∉ incomingHeaders) ∧
    (handleFileChosen incomingHeaders records).rows = [] ∧
    ∀ prev, rowsAfterImport prev incomingHeaders records = [] := by
  obtain ⟨x0, hx0, hx0n⟩ := h
  have hmem : x0 ∈ EXPECTED_HEADERS.filter (fun y => !(incomingHeaders.contains y)) := by
    simp [List.mem_filter, hx0, List.contains, List.elem_iff, hx0n]
  have hne : (EXPECTED_HEADERS.filter (fun y => !(incomingHeaders.contains y))).isEmpty = false := by
    cases hfil : EXPECTED_HEADERS.filter (fun y => !(incomingHeaders.contains y)) with
    | nil => rw [hfil] at hmem; exact absurd hmem (List.not_mem_nil _)
    | cons a t => simp [List.isEmpty]
  have hout : handleFileChosen incomingHeaders records =
      ⟨[missingColumnsMsg (EXPECTED_HEADERS.filter (fun y => !(incomingHeaders.contains y)))], []⟩ := by
    simp only [handleFileChosen]
    rw [hne]
    rfl
  refine ⟨?_, fun y => ?_, ?_, fun prev => ?_⟩
  · rw [hout]
  · simp [List.mem_filter, List.contains, List.elem_iff]
  · rw [hout]
  · rw [rowsAfterImport, hout]

/-- Witness: the rejection theorem applied to the header set missing
exactly `"Grade"`. -/
theorem import_missing_headers_rejects_witness :
    (handleFileChosen headersNoGrade []).errors =
      [missingColumnsMsg (EXPECTED_HEADERS.filter (fun y => !(headersNoGrade.contains y)))] ∧
    (∀ y, y ∈ EXPECTED_HEADERS.filter (fun y => !(headersNoGrade.contains y)) ↔
      y ∈ EXPECTED_HEADERS ∧ y ∉ headersNoGrade) ∧
    (handleFileChosen headersNoGrade []).rows = [] ∧
    ∀ prev, rowsAfterImport prev headersNoGrade [] = [] :=
  import_missing_headers_rejects headersNoGrade []
    ⟨cs "Grade", by decide, by decide⟩

/-! ### Claim C8: computeFinancials and the normalization parse rule -/

/-- C8 counterexample: on the cell `"5 USD"` the home page's `toNumber`
(delete `$` and `,`, trim, `Number`) yields 0 while the import rule
(strip to digits, dot, minus, then `Number`) yields 5, so
`computeFinancials` does not follow the claimed shared rule. -/
theorem computeFinancials_differs_from_spec_rule :
    (computeFinancials [c8row]).totalCost = 0 ∧
    specStripParse (cs "5 USD") = 5 ∧ ((0 : ℚ) ≠ 5) := by
  refine ⟨?_, ?_, by norm_num⟩
  · have h1 : jsParse (jsTrim (List.filter (fun c => !decide (c = '$') && !decide (c = ','))
        (cs "5 USD"))) = none := by decide
    simp [computeFinancials, c8row, toNumber, h1]
  · have h2 : jsParse (stripCurrency (cs "5 USD")) = some (.fin false ⟨5, 0⟩) := by decide
    simp [specStripParse, h2, JsNum.val, Mag.val]

/-- C8 amended: `computeFinancials` totals the rows with the home
page's own parser `toNumber` — delete `$` and `,`, trim, `Number`,
non-finite contributing 0 — and `gainLoss = totalValue - totalCost`;
that rule coincides with normalization's strip-then-parse on formatted
currency text but not on arbitrary cell text. -/
theorem computeFinancials_characterization (rows : List CanonicalRow) :
    computeFinancials rows =
      ⟨(rows.map (fun r => toNumber r.cost)).sum,
       (rows.map (fun r => toNumber r.value)).sum,
       (rows.map (fun r => toNumber r.value)).sum -
         (rows.map (fun r => toNumber r.cost)).sum⟩ := by
  simp [computeFinancials, foldl_add_eq_sum]

/-! ### Claim C3: currency-cell normalization -/

/-- C3 counterexample: a letters-only cost cell strips to the empty
string, which `Number` parses as 0, so the cell becomes `"$0.00"`
instead of being preserved as the claim requires. -/
theorem normCurrency_letters_become_zero :
    normCurrencyCell (cs "abc") = cs "$0.00" ∧ cs "abc" ≠ cs "$0.00" := by decide

/-- C3 amended: blank cells are untouched; when the stripped remainder
parses as a number — the empty remainder counting as 0 — the stored
value is that number as 2-decimal currency text; only a non-empty
remainder that fails to parse preserves the original text. -/
theorem normCurrencyCell_characterization (raw : Str) :
    (jsTrim raw = [] → normCurrencyCell raw = raw) ∧
    (jsTrim raw ≠ [] → ∀ n, jsParse (stripCurrency raw) = some n →
      normCurrencyCell raw = formatCurrencyJs n) ∧
    (jsTrim raw ≠ [] → jsParse (stripCurrency raw) = none →
      normCurrencyCell raw = raw) := by
  refine ⟨fun h => ?_, fun hne n hp => ?_, fun hne hp => ?_⟩
  · simp [normCurrencyCell, h]
  · have hE : (jsTrim raw).isEmpty = false := by
      cases hfil : jsTrim raw with
      | nil => exact absurd hfil hne
      | cons a t => simp [List.isEmpty]
    simp [normCurrencyCell, hE, hp, toCurrency, stripCurrency_idem]
  · have hE : (jsTrim raw).isEmpty = false := by
      cases hfil : jsTrim raw with
      | nil => exact absurd hfil hne
      | cons a t => simp [List.isEmpty]
    simp [normCurrencyCell, hE, hp]

/-- Witness: an unparseable remainder is preserved and a parseable one
is reformatted, at concrete cells. -/
theorem normCurrencyCell_characterization_witness :
    normCurrencyCell (cs "1.2.3") = cs "1.2.3" ∧
    normCurrencyCell (cs "$5") = cs "$5.00" :=
  ⟨(normCurrencyCell_characterization (cs "1.2.3")).2.2 (by decide) (by decide),
   ((normCurrencyCell_characterization (cs "$5")).2.1 (by decide)
      (JsNum.fin false ⟨5, 0⟩) (by decide)).trans (by decide)⟩

/-! ### Claim C2: numeric grade rounding -/

theorem halfGradeStr_mem (k : ℤ) (h2 : 2 ≤ k) (h20 : k ≤ 20) :
    halfGradeStr k.toNat ∈ GRADES_NUMERIC := by
  interval_cases k <;> decide

theorem signed_val (sg : Bool) (d : Mag) :
    (JsNum.fin sg d).val = ((if sg then -(d.man : ℤ) else (d.man : ℤ) : ℤ) : ℚ) * 10 ^ d.ex := by
  cases sg <;> simp [JsNum.val, Mag.val]

theorem jsRound2_fin_eq_floor (sg : Bool) (d : Mag) :
    jsRound2 (.fin sg d) = ⌊2 * (JsNum.fin sg d).val + 1 / 2⌋ := by
  set sm : ℤ := if sg then -(d.man : ℤ) else (d.man : ℤ) with hsm
  have hval : (JsNum.fin sg d).val = (sm : ℚ) * 10 ^ d.ex := signed_val sg d
  by_cases h : 0 ≤ d.ex
  · have hex : ((d.ex.toNat : ℤ) : ℤ) = d.ex := Int.toNat_of_nonneg h
    have hzpow : (10 : ℚ) ^ d.ex = ((10 ^ d.ex.toNat : ℤ) : ℚ) := by
      conv_lhs => rw [← hex]
      rw [zpow_natCast]
      push_cast
      ring
    have hq : 2 * (JsNum.fin sg d).val + 1 / 2 =
        ((4 * sm * 10 ^ d.ex.toNat + 1 : ℤ) : ℚ) / ((2 : ℕ) : ℚ) := by
      rw [hval, hzpow]
      push_cast
      ring
    rw [hq, Rat.floor_intCast_div_natCast]
    simp only [jsRound2, ← hsm, if_pos h]
    rfl
  · have hneg : 0 ≤ -d.ex := by omega
    have hex : (((-d.ex).toNat : ℤ) : ℤ) = -d.ex := Int.toNat_of_nonneg hneg
    have hzpow : (10 : ℚ) ^ d.ex = (((10 : ℚ) ^ (-d.ex).toNat))⁻¹ := by
      conv_lhs => rw [show d.ex = -(((-d.ex).toNat : ℤ)) by omega]
      rw [zpow_neg, zpow_natCast]
    have hpow_pos : (0 : ℚ) < (10 : ℚ) ^ (-d.ex).toNat := by positivity
    have hq : 2 * (JsNum.fin sg d).val + 1 / 2 =
        ((4 * sm + 10 ^ (-d.ex).toNat : ℤ) : ℚ) / ((2 * 10 ^ (-d.ex).toNat : ℕ) : ℚ) := by
      rw [hval, hzpow]
      push_cast
      field_simp
      ring
    rw [hq, Rat.floor_intCast_div_natCast]
    simp only [jsRound2, ← hsm, if_neg h]
    push_cast
    rfl

theorem round_clamp_nearest (q : ℚ) (j : ℤ) (hj2 : 2 ≤ j) (hj20 : j ≤ 20) :
    |q - ((min 20 (max 2 ⌊2 * q + 1 / 2⌋) : ℤ) : ℚ) / 2| ≤ |q - (j : ℚ) / 2| := by
  set r : ℤ := ⌊2 * q + 1 / 2⌋ with hr
  have hfl : (r : ℚ) ≤ 2 * q + 1 / 2 := Int.floor_le _
  have hfu : 2 * q + 1 / 2 < (r : ℚ) + 1 := Int.lt_floor_add_one _
  set k : ℤ := min 20 (max 2 r) with hk
  have habs2 : ∀ a : ℚ, |q - a / 2| = |2 * q - a| / 2 := by
    intro a
    rw [show q - a / 2 = (2 * q - a) / 2 by ring, abs_div]
    norm_num
  rw [habs2 (k : ℚ), habs2 (j : ℚ)]
  have main : |2 * q - (k : ℚ)| ≤ |2 * q - (j : ℚ)| := by
    by_cases hA : 2 ≤ r ∧ r ≤ 20
    · have hkr : k = r := by rw [hk, max_eq_right hA.1, min_eq_right hA.2]
      by_cases hjr : j = r
      · rw [hkr, hjr]
      · have hdz : (1 : ℤ) ≤ |j - r| := Int.one_le_abs (sub_ne_zero.mpr hjr)
        have hd : (1 : ℚ) ≤ |(j : ℚ) - (r : ℚ)| := by exact_mod_cast hdz
        have ht : |(j : ℚ) - (r : ℚ)| ≤ |(j : ℚ) - 2 * q| + |2 * q - (r : ℚ)| :=
          abs_sub_le _ _ _
        have hqr : |2 * q - (r : ℚ)| ≤ 1 / 2 := by
          rw [abs_le]
          constructor <;> linarith
        have hcomm : |2 * q - (j : ℚ)| = |(j : ℚ) - 2 * q| := abs_sub_comm _ _
        rw [hkr]
        linarith
    · by_cases hB : r < 2
      · have hkk : k = 2 := by
          rw [hk, max_eq_left (by omega : r ≤ 2), min_eq_right (by norm_num : (2 : ℤ) ≤ 20)]
        have hrq : (r : ℚ) + 1 ≤ 2 := by exact_mod_cast (by omega : r + 1 ≤ 2)
        have h2q : 2 * q < 3 / 2 := by linarith
        have hj' : (2 : ℚ) ≤ (j : ℚ) := by exact_mod_cast hj2
        rw [hkk]
        have hc2 : ((2 : ℤ) : ℚ) = 2 := by norm_num
        rw [hc2]
        have h1 : |2 * q - 2| = 2 - 2 * q := by
          rw [abs_of_nonpos (by linarith)]
          ring
        have h2 : (j : ℚ) - 2 * q ≤ |(j : ℚ) - 2 * q| := le_abs_self _
        have hcomm : |2 * q - (j : ℚ)| = |(j : ℚ) - 2 * q| := abs_sub_comm _ _
        linarith
      · have hr21 : 21 ≤ r := by omega
        have hkk : k = 20 := by
          rw [hk, min_eq_left (le_trans (by omega : (20 : ℤ) ≤ r) (le_max_right 2 r))]
        have hrq : (21 : ℚ) ≤ (r : ℚ) := by exact_mod_cast hr21
        have h2q : (41 : ℚ) / 2 ≤ 2 * q := by linarith
        have hj' : (j : ℚ) ≤ 20 := by exact_mod_cast hj20
        rw [hkk]
        have hc20 : ((20 : ℤ) : ℚ) = 20 := by norm_num
        rw [hc20]
        have h1 : |2 * q - 20| = 2 * q - 20 := abs_of_nonneg (by linarith)
        have h2 : 2 * q - (j : ℚ) ≤ |2 * q - (j : ℚ)| := le_abs_self _
        linarith
  linarith

/-- C2: for every grade input that `Number` parses to a finite value,
the normalized grade is blank only for the blank input, and otherwise
is the vocabulary member for the multiple of 0.5 in `[1, 10]` (tracked
as `k/2`, `k ∈ [2, 20]`) nearest to the parsed value — rounding then
clamping — formatted with the trailing `.0` dropped. -/
theorem normalizeNumericGrade_rounds (input : Str) (sg : Bool) (d : Mag)
    (hp : jsParse (jsTrim input) = some (.fin sg d)) :
    (jsTrim input = [] ∧ normalizeNumericGrade input = []) ∨
    (∃ k : ℤ, 2 ≤ k ∧ k ≤ 20 ∧
      normalizeNumericGrade input = halfGradeStr k.toNat ∧
      halfGradeStr k.toNat ∈ GRADES_NUMERIC ∧
      ∀ j : ℤ, 2 ≤ j → j ≤ 20 →
        |(JsNum.fin sg d).val - (k : ℚ) / 2| ≤ |(JsNum.fin sg d).val - (j : ℚ) / 2|) := by
  by_cases hE : jsTrim input = []
  · left
    exact ⟨hE, by simp [normalizeNumericGrade, hE]⟩
  · right
    have hEb : (jsTrim input).isEmpty = false := by
      cases hfil : jsTrim input with
      | nil => exact absurd hfil hE
      | cons a t => simp [List.isEmpty]
    have hk2 : (2 : ℤ) ≤ min 20 (max 2 (jsRound2 (JsNum.fin sg d))) :=
      le_min (by norm_num) (le_max_left _ _)
    have hk20 : min 20 (max 2 (jsRound2 (JsNum.fin sg d))) ≤ 20 := min_le_left _ _
    have hmem := halfGradeStr_mem _ hk2 hk20
    have hcont : GRADES_NUMERIC.contains
        (halfGradeStr (min 20 (max 2 (jsRound2 (JsNum.fin sg d)))).toNat) = true :=
      List.elem_iff.mpr hmem
    refine ⟨min 20 (max 2 (jsRound2 (JsNum.fin sg d))), hk2, hk20, ?_, hmem, ?_⟩
    · simp [normalizeNumericGrade, hEb, hp, hcont, hmem]
    · intro j hj2 hj20
      have hnear := round_clamp_nearest ((JsNum.fin sg d).val) j hj2 hj20
      rwa [← jsRound2_fin_eq_floor] at hnear

/-- Witness: the rounding theorem at the parsed value of `"7.3"`,
alongside the claim's three concrete examples. -/
theorem normalizeNumericGrade_rounds_witness :
    (normalizeNumericGrade (cs "7.3") = cs "7.5" ∧
     normalizeNumericGrade (cs "11") = cs "10" ∧
     normalizeNumericGrade (cs "0") = cs "1") ∧
    ((jsTrim (cs "7.3") = [] ∧ normalizeNumericGrade (cs "7.3") = []) ∨
     (∃ k : ℤ, 2 ≤ k ∧ k ≤ 20 ∧
       normalizeNumericGrade (cs "7.3") = halfGradeStr k.toNat ∧
       halfGradeStr k.toNat ∈ GRADES_NUMERIC ∧
       ∀ j : ℤ, 2 ≤ j → j ≤ 20 →
         |(JsNum.fin false ⟨73, -1⟩).val - (k : ℚ) / 2| ≤
           |(JsNum.fin false ⟨73, -1⟩).val - (j : ℚ) / 2|)) :=
  ⟨by decide, normalizeNumericGrade_rounds (cs "7.3") false ⟨73, -1⟩ (by decide)⟩

/-! ### Claim C6: currency formatting is a fixed point -/

theorem digitVal_digitChar (m : ℕ) (h : m < 10) : digitVal (digitChar m) = m := by
  interval_cases m <;> decide

theorem isDigitCh_digitChar (m : ℕ) (h : m < 10) : isDigitCh (digitChar m) = true := by
  interval_cases m <;> decide

theorem digitsVal_append_one (l : Str) (c : Char) :
    digitsVal (l ++ [c]) = 10 * digitsVal l + digitVal c := by
  simp [digitsVal, List.foldl_append]

theorem natDigitsAux_spec (fuel n : ℕ) (h : n < fuel) :
    digitsVal (natDigitsAux fuel n) = n ∧
    (∀ c ∈ natDigitsAux fuel n, isDigitCh c = true) ∧
    natDigitsAux fuel n ≠ [] := by
  induction fuel generalizing n with
  | zero => omega
  | succ f ih =>
    by_cases hn : n < 10
    · refine ⟨?_, ?_, ?_⟩
      · simp [natDigitsAux, hn, digitsVal, digitVal_digitChar n hn]
      · intro c hc
        simp [natDigitsAux, hn] at hc
        subst hc
        exact isDigitCh_digitChar n hn
      · simp [natDigitsAux, hn]
    · have hpos : 0 < n := by omega
      have hlt : n / 10 < n := Nat.div_lt_self hpos (by norm_num)
      have hdiv : n / 10 < f := by omega
      obtain ⟨ih1, ih2, ih3⟩ := ih (n / 10) hdiv
      refine ⟨?_, ?_, ?_⟩
      · rw [natDigitsAux, if_neg hn, digitsVal_append_one, ih1,
          digitVal_digitChar _ (Nat.mod_lt n (by norm_num))]
        omega
      · intro c hc
        rw [natDigitsAux, if_neg hn] at hc
        rcases List.mem_append.mp hc with hc | hc
        · exact ih2 c hc
        · simp at hc
          subst hc
          exact isDigitCh_digitChar _ (Nat.mod_lt n (by norm_num))
      · rw [natDigitsAux, if_neg hn]
        simp

theorem natDigits_spec (n : ℕ) :
    digitsVal (natDigits n) = n ∧
    (∀ c ∈ natDigits n, isDigitCh c = true) ∧ natDigits n ≠ [] :=
  natDigitsAux_spec (n + 1) n (by omega)

theorem pad2_spec (r : ℕ) (h : r < 100) :
    digitsVal (pad2 r) = r ∧ (∀ c ∈ pad2 r, isDigitCh c = true) ∧
    (pad2 r).length = 2 := by
  have h10 : r / 10 < 10 := by omega
  have hm : r % 10 < 10 := Nat.mod_lt r (by norm_num)
  refine ⟨?_, ?_, rfl⟩
  · simp [pad2, digitsVal, digitVal_digitChar _ h10, digitVal_digitChar _ hm]
    omega
  · intro c hc
    simp [pad2] at hc
    rcases hc with hc | hc <;> subst hc
    · exact isDigitCh_digitChar _ h10
    · exact isDigitCh_digitChar _ hm

theorem filter_group3Aux (p : Char → Bool) (hcomma : p ',' = false) (m : Str) :
    ∀ k : ℕ, (group3Aux k m).filter p = m.filter p := by
  induction m with
  | nil => intro k; rfl
  | cons c rest ih =>
    intro k
    by_cases hk : 0 < k ∧ k % 3 = 0
    · simp [group3Aux, if_pos hk, List.filter_cons, hcomma, ih]
    · simp [group3Aux, if_neg hk, List.filter_cons, ih]

theorem filter_group3 (p : Char → Bool) (hcomma : p ',' = false) (l : Str) :
    (group3 l).filter p = l.filter p := by
  rw [group3, List.filter_reverse, filter_group3Aux p hcomma, ← List.filter_reverse,
    List.reverse_reverse]

theorem dropWhile_eq_self_of_all (p : Char → Bool) (l : Str)
    (h : ∀ c ∈ l, p c = false) : l.dropWhile p = l := by
  cases l with
  | nil => rfl
  | cons c t => simp [List.dropWhile_cons, h c (by simp)]

theorem jsTrim_eq_self (l : Str) (h : ∀ c ∈ l, isWsCh c = false) : jsTrim l = l := by
  unfold jsTrim
  rw [dropWhile_eq_self_of_all _ _ h,
    dropWhile_eq_self_of_all _ _ (fun c hc => h c (List.mem_reverse.mp hc)),
    List.reverse_reverse]

theorem takeWhile_append_cons (p : Char → Bool) (D : Str) (c : Char) (r : Str)
    (hD : ∀ x ∈ D, p x = true) (hc : p c = false) :
    (D ++ c :: r).takeWhile p = D ∧ (D ++ c :: r).dropWhile p = c :: r := by
  induction D with
  | nil => simp [List.takeWhile_cons, List.dropWhile_cons, hc]
  | cons d0 t ih =>
    have hd0 : p d0 = true := hD d0 (by simp)
    have hrest : ∀ x ∈ t, p x = true := fun x hx => hD x (by simp [hx])
    obtain ⟨ih1, ih2⟩ := ih hrest
    simp [List.takeWhile_cons, List.dropWhile_cons, hd0, ih1, ih2]

theorem takeWhile_eq_self_of_all (p : Char → Bool) (l : Str)
    (h : ∀ c ∈ l, p c = true) : l.takeWhile p = l ∧ l.dropWhile p = [] := by
  induction l with
  | nil => simp
  | cons c t ih =>
    have hc : p c = true := h c (by simp)
    obtain ⟨ih1, ih2⟩ := ih (fun x hx => h x (by simp [hx]))
    simp [List.takeWhile_cons, List.dropWhile_cons, hc, ih1, ih2]

theorem filter_strip_digits (l : Str) (h : ∀ c ∈ l, isDigitCh c = true) :
    l.filter (fun c => isDigitCh c || c = '.' || c = '-') = l :=
  List.filter_eq_self.mpr (fun c hc => by simp [h c hc])

theorem parseUnsignedDec_canonical (D F : Str) (hD : ∀ c ∈ D, isDigitCh c = true)
    (hDne : D ≠ []) (hF : ∀ c ∈ F, isDigitCh c = true) :
    parseUnsignedDec (D ++ '.' :: F) =
      some ⟨digitsVal D * 10 ^ F.length + digitsVal F, -(F.length : ℤ)⟩ := by
  obtain ⟨ht, hd⟩ := takeWhile_append_cons isDigitCh D '.' F hD (by decide)
  obtain ⟨htF, hdF⟩ := takeWhile_eq_self_of_all isDigitCh F hF
  have hDE : D.isEmpty = false := by
    cases D with
    | nil => exact absurd rfl hDne
    | cons a t => rfl
  simp only [parseUnsignedDec]
  rw [ht, hd]
  simp [htF, hdF, hDE]

theorem canonical_ne_infinity (D F : Str) (hD : ∀ c ∈ D, isDigitCh c = true)
    (hDne : D ≠ []) : D ++ '.' :: F ≠ infinityChars := by
  intro he
  cases D with
  | nil => exact hDne rfl
  | cons d0 t =>
    have hd0 : isDigitCh d0 = true := hD d0 (by simp)
    have hI : d0 = 'I' := by
      have := congrArg List.head? he
      simpa [infinityChars] using this
    subst hI
    exact absurd hd0 (by decide)

theorem parseSigned_canonical (sg : Bool) (D F : Str)
    (hD : ∀ c ∈ D, isDigitCh c = true) (hDne : D ≠ [])
    (hF : ∀ c ∈ F, isDigitCh c = true) :
    parseSigned sg (D ++ '.' :: F) =
      some (.fin sg ⟨digitsVal D * 10 ^ F.length + digitsVal F, -(F.length : ℤ)⟩) := by
  unfold parseSigned
  rw [if_neg (canonical_ne_infinity D F hD hDne),
    parseUnsignedDec_canonical D F hD hDne hF]
  rfl

theorem strip_format (sg : Bool) (d : Mag) :
    stripCurrency (formatCurrencyUSD sg d) =
      (if sg then ['-'] else []) ++ natDigits (d.cents / 100) ++ '.' :: pad2 (d.cents % 100) := by
  obtain ⟨_, hdig, _⟩ := natDigits_spec (d.cents / 100)
  obtain ⟨_, hdigF, _⟩ := pad2_spec (d.cents % 100) (Nat.mod_lt _ (by norm_num))
  unfold stripCurrency formatCurrencyUSD
  rw [List.filter_append]
  have hsign : (if sg then ['-'] else []).filter
      (fun c => isDigitCh c || c = '.' || c = '-') = (if sg then ['-'] else []) := by
    cases sg <;> decide
  rw [hsign, List.filter_cons]
  have hdollar : (isDigitCh '$' || '$' = '.' || '$' = '-') = false := by decide
  rw [hdollar]
  simp only [List.filter_append, Bool.false_eq_true, if_false]
  rw [filter_group3 _ (by decide), filter_strip_digits _ hdig, List.filter_cons]
  have hdot : (isDigitCh '.' || '.' = '.' || '.' = '-') = true := by decide
  rw [hdot]
  simp only [if_true]
  rw [filter_strip_digits _ hdigF, List.append_assoc]

theorem digit_not_ws (c : Char) (h : isDigitCh c = true) : isWsCh c = false := by
  by_contra hcon
  have hw : isWsCh c = true := by
    cases hx : isWsCh c
    · exact absurd hx hcon
    · rfl
  have h48 : 48 ≤ c.toNat := by
    simp [isDigitCh] at h
    exact h.1
  have hlt : c.toNat < 48 := by
    simp [isWsCh] at hw
    rcases hw with ((h1 | h1) | h1) | h1 <;> subst h1 <;> decide
  omega

theorem jsParse_canonical (sg : Bool) (D F : Str)
    (hD : ∀ c ∈ D, isDigitCh c = true) (hDne : D ≠ [])
    (hF : ∀ c ∈ F, isDigitCh c = true) :
    jsParse ((if sg then ['-'] else []) ++ D ++ '.' :: F) =
      some (.fin sg ⟨digitsVal D * 10 ^ F.length + digitsVal F, -(F.length : ℤ)⟩) := by
  have hnws : ∀ c ∈ (if sg then ['-'] else []) ++ D ++ '.' :: F, isWsCh c = false := by
    intro c hc
    have hcases : c = '-' ∨ c ∈ D ∨ c = '.' ∨ c ∈ F := by
      rcases List.mem_append.mp hc with h1 | h1
      · rcases List.mem_append.mp h1 with h2 | h2
        · left
          cases sg
          · simp at h2
          · simpa using h2
        · right; left; exact h2
      · rcases List.mem_cons.mp h1 with h3 | h3
        · right; right; left; exact h3
        · right; right; right; exact h3
    rcases hcases with h | h | h | h
    · subst h; decide
    · exact digit_not_ws c (hD c h)
    · subst h; decide
    · exact digit_not_ws c (hF c h)
  have htrim := jsTrim_eq_self _ hnws
  cases sg
  · cases D with
    | nil => exact absurd rfl hDne
    | cons d0 t =>
      have hd0 : isDigitCh d0 = true := hD d0 (by simp)
      simp only [if_neg (by simp : ¬ (false = true)), List.nil_append] at htrim ⊢
      unfold jsParse
      rw [htrim]
      simp only [List.cons_append]
      split
      · simp_all
      · rename_i heq
        have hplus : d0 = '+' := ((List.cons.injEq _ _ _ _).mp heq).1
        subst hplus
        exact absurd hd0 (by decide)
      · rename_i heq
        have hminus : d0 = '-' := ((List.cons.injEq _ _ _ _).mp heq).1
        subst hminus
        exact absurd hd0 (by decide)
      · rename_i c2 rest heq
        obtain ⟨hd00, hrest⟩ := (List.cons.injEq _ _ _ _).mp heq
        have hc2 : isDigitCh c2 = true ∨ c2 = '.' := by
          cases t with
          | nil =>
            right
            simp only [List.nil_append] at hrest
            exact (((List.cons.injEq _ _ _ _).mp hrest).1).symm
          | cons t0 tt =>
            left
            rw [List.cons_append] at hrest
            have ht0 : t0 = c2 := ((List.cons.injEq _ _ _ _).mp hrest).1
            rw [← ht0]
            exact hD t0 (by simp)
        have hx : ¬ (c2 = 'x' ∨ c2 = 'X') := by
          rcases hc2 with h | h
          · rintro (he | he) <;> subst he <;> exact absurd h (by decide)
          · subst h; rintro (he | he) <;> simp at he
        have ho : ¬ (c2 = 'o' ∨ c2 = 'O') := by
          rcases hc2 with h | h
          · rintro (he | he) <;> subst he <;> exact absurd h (by decide)
          · subst h; rintro (he | he) <;> simp at he
        have hb : ¬ (c2 = 'b' ∨ c2 = 'B') := by
          rcases hc2 with h | h
          · rintro (he | he) <;> subst he <;> exact absurd h (by decide)
          · subst h; rintro (he | he) <;> simp at he
        rw [if_neg hx, if_neg ho, if_neg hb, ← heq, ← List.cons_append]
        exact parseSigned_canonical false (d0 :: t) F hD hDne hF
      · rw [← List.cons_append]
        exact parseSigned_canonical false (d0 :: t) F hD hDne hF
  · simp only [if_pos rfl, List.singleton_append] at htrim ⊢
    unfold jsParse
    rw [htrim]
    show parseSigned true (D ++ '.' :: F) = _
    exact parseSigned_canonical true D F hD hDne hF

theorem cents_of_cents (c : ℕ) : Mag.cents ⟨c, -2⟩ = c := by
  simp [Mag.cents]

/-- C6: formatting any representable numeric value (sign and decimal
magnitude) as USD currency text, stripping that text, and formatting
again returns the identical currency text. -/
theorem toCurrency_format_fixed_point (sg : Bool) (d : Mag) :
    toCurrency (formatCurrencyJs (.fin sg d)) = formatCurrencyJs (.fin sg d) := by
  obtain ⟨hDval, hDdig, hDne⟩ := natDigits_spec (d.cents / 100)
  obtain ⟨hFval, hFdig, hFlen⟩ := pad2_spec (d.cents % 100) (Nat.mod_lt _ (by norm_num))
  have hman : digitsVal (natDigits (d.cents / 100)) * 10 ^ (pad2 (d.cents % 100)).length +
      digitsVal (pad2 (d.cents % 100)) = d.cents := by
    rw [hDval, hFval, hFlen, show (10 : ℕ) ^ 2 = 100 from rfl]
    omega
  have hexp : -(((pad2 (d.cents % 100)).length : ℕ) : ℤ) = -2 := by
    rw [hFlen]
    norm_num
  show toCurrency (formatCurrencyUSD sg d) = formatCurrencyUSD sg d
  unfold toCurrency
  rw [strip_format, jsParse_canonical sg _ _ hDdig hDne hFdig, hman, hexp]
  show formatCurrencyUSD sg ⟨d.cents, -2⟩ = formatCurrencyUSD sg d
  simp only [formatCurrencyUSD, cents_of_cents]

/-! ### Claim C5: normalization idempotence -/

theorem mem_of_mem_dropWhile {c : Char} (p : Char → Bool) :
    ∀ l : Str, c ∈ l.dropWhile p → c ∈ l := by
  intro l h
  induction l with
  | nil => simp at h
  | cons a t ih =>
    rw [List.dropWhile_cons] at h
    by_cases hp : p a = true
    · simp only [hp, if_true] at h
      exact List.mem_cons_of_mem a (ih h)
    · rw [if_neg (by simp [hp])] at h
      exact h

theorem mem_of_mem_jsTrim {c : Char} {l : Str} (h : c ∈ jsTrim l) : c ∈ l := by
  unfold jsTrim at h
  rw [List.mem_reverse] at h
  have h1 := mem_of_mem_dropWhile isWsCh _ h
  rw [List.mem_reverse] at h1
  exact mem_of_mem_dropWhile isWsCh _ h1

theorem parseSigned_inf_mem {sg b : Bool} {l : Str}
    (h : parseSigned sg l = some (.inf b)) : 'I' ∈ l := by
  unfold parseSigned at h
  split_ifs at h with hi
  · subst hi
    decide
  · cases hpu : parseUnsignedDec l with
    | none => rw [hpu] at h; simp at h
    | some m => rw [hpu] at h; simp at h

theorem jsParse_inf_mem {l : Str} {b : Bool}
    (h : jsParse l = some (.inf b)) : 'I' ∈ l := by
  unfold jsParse at h
  split at h
  · simp at h
  · rename_i heq
    have := parseSigned_inf_mem h
    exact mem_of_mem_jsTrim (by rw [heq]; exact List.mem_cons_of_mem _ this)
  · rename_i heq
    have := parseSigned_inf_mem h
    exact mem_of_mem_jsTrim (by rw [heq]; exact List.mem_cons_of_mem _ this)
  · rename_i c2 rest heq
    split_ifs at h <;>
      first
        | simp at h
        | exact mem_of_mem_jsTrim (by rw [heq]; exact parseSigned_inf_mem h)
  · exact mem_of_mem_jsTrim (parseSigned_inf_mem h)

theorem strip_no_I (v : Str) : 'I' ∉ stripCurrency v := by
  intro h
  exact absurd (List.mem_filter.mp h).2 (by decide)

theorem toCurrency_strip (x : Str) : toCurrency (stripCurrency x) = toCurrency x := by
  unfold toCurrency
  rw [stripCurrency_idem]

theorem mem_group3Aux {c : Char} : ∀ (k : ℕ) (l : Str), c ∈ group3Aux k l → c ∈ l ∨ c = ',' := by
  intro k l
  induction l generalizing k with
  | nil => intro h; simp [group3Aux] at h
  | cons a t ih =>
    intro h
    by_cases hk : 0 < k ∧ k % 3 = 0
    · rw [group3Aux, if_pos hk] at h
      rcases List.mem_cons.mp h with h1 | h1
      · right; exact h1
      · rcases List.mem_cons.mp h1 with h2 | h2
        · left; simp [h2]
        · rcases ih (k + 1) h2 with h3 | h3
          · left; exact List.mem_cons_of_mem a h3
          · right; exact h3
    · rw [group3Aux, if_neg hk] at h
      rcases List.mem_cons.mp h with h1 | h1
      · left; simp [h1]
      · rcases ih (k + 1) h1 with h3 | h3
        · left; exact List.mem_cons_of_mem a h3
        · right; exact h3

theorem mem_group3 {c : Char} {l : Str} (h : c ∈ group3 l) : c ∈ l ∨ c = ',' := by
  unfold group3 at h
  rw [List.mem_reverse] at h
  rcases mem_group3Aux 0 _ h with h1 | h1
  · left; exact List.mem_reverse.mp h1
  · right; exact h1

theorem format_no_ws (sg : Bool) (d : Mag) :
    ∀ c ∈ formatCurrencyUSD sg d, isWsCh c = false := by
  intro c hc
  obtain ⟨_, hDdig, _⟩ := natDigits_spec (d.cents / 100)
  obtain ⟨_, hFdig, _⟩ := pad2_spec (d.cents % 100) (Nat.mod_lt _ (by norm_num))
  unfold formatCurrencyUSD at hc
  rcases List.mem_append.mp hc with h1 | h1
  · cases sg
    · simp at h1
    · simp at h1
      subst h1
      decide
  · rcases List.mem_cons.mp h1 with h2 | h2
    · subst h2; decide
    · rcases List.mem_append.mp h2 with h3 | h3
      · rcases mem_group3 h3 with h4 | h4
        · exact digit_not_ws c (hDdig c h4)
        · subst h4; decide
      · rcases List.mem_cons.mp h3 with h4 | h4
        · subst h4; decide
        · exact digit_not_ws c (hFdig c h4)

theorem format_ne_nil (sg : Bool) (d : Mag) : formatCurrencyUSD sg d ≠ [] := by
  cases sg <;> simp [formatCurrencyUSD]

theorem normCurrencyCell_idem (v : Str) :
    normCurrencyCell (normCurrencyCell v) = normCurrencyCell v := by
  by_cases hE : jsTrim v = []
  · have h1 := (normCurrencyCell_characterization v).1 hE
    rw [h1]
    exact h1
  · cases hp : jsParse (stripCurrency v) with
    | none =>
      have h1 := (normCurrencyCell_characterization v).2.2 hE hp
      rw [h1]
      exact h1
    | some n =>
      cases n with
      | inf b => exact absurd (jsParse_inf_mem hp) (strip_no_I v)
      | fin sg d =>
        have hout := (normCurrencyCell_characterization v).2.1 hE (.fin sg d) hp
        rw [hout]
        obtain ⟨_, hDdig, hDne⟩ := natDigits_spec (d.cents / 100)
        obtain ⟨_, hFdig, _⟩ := pad2_spec (d.cents % 100) (Nat.mod_lt _ (by norm_num))
        show normCurrencyCell (formatCurrencyUSD sg d) = formatCurrencyUSD sg d
        have hT : jsTrim (formatCurrencyUSD sg d) = formatCurrencyUSD sg d :=
          jsTrim_eq_self _ (format_no_ws sg d)
        have hTE : (jsTrim (formatCurrencyUSD sg d)).isEmpty = false := by
          rw [hT]
          cases hfe : formatCurrencyUSD sg d with
          | nil => exact absurd hfe (format_ne_nil sg d)
          | cons a t => simp [List.isEmpty]
        have hp2 : jsParse (stripCurrency (formatCurrencyUSD sg d)) =
            some (.fin sg ⟨digitsVal (natDigits (d.cents / 100)) *
              10 ^ (pad2 (d.cents % 100)).length + digitsVal (pad2 (d.cents % 100)),
              -(((pad2 (d.cents % 100)).length : ℕ) : ℤ)⟩) := by
          rw [strip_format, jsParse_canonical sg _ _ hDdig hDne hFdig]
        have hSome : (jsParse (stripCurrency (formatCurrencyUSD sg d))).isSome = true := by
          rw [hp2]
          rfl
        have hstep : normCurrencyCell (formatCurrencyUSD sg d) =
            toCurrency (stripCurrency (formatCurrencyUSD sg d)) := by
          unfold normCurrencyCell
          simp [hTE, hSome]
        rw [hstep, toCurrency_strip]
        exact toCurrency_format_fixed_point sg d

theorem normYesNo_cases (v : Str) :
    normYesNo v = cs "Yes" ∨ normYesNo v = cs "No" ∨ normYesNo v = [] := by
  simp only [normYesNo]
  split_ifs with h1 h2
  · left; rfl
  · right; left; rfl
  · right; right; rfl

theorem normYesNo_idem (v : Str) : normYesNo (normYesNo v) = normYesNo v := by
  rcases normYesNo_cases v with h | h | h <;> rw [h] <;> decide

theorem normRawGrade_mem (v : Str) : normRawGrade v ∈ RAW_GRADES := by
  simp only [normRawGrade]
  by_cases h : RAW_GRADES.contains (jsTrim v) = true
  · rw [if_pos h]
    exact List.elem_iff.mp h
  · rw [if_neg h]
    decide

theorem normRawGrade_vocab_fixed : ∀ g ∈ RAW_GRADES, normRawGrade g = g := by decide

theorem normRawGrade_idem (v : Str) : normRawGrade (normRawGrade v) = normRawGrade v :=
  normRawGrade_vocab_fixed _ (normRawGrade_mem v)

theorem normalizeNumericGrade_mem (v : Str) :
    normalizeNumericGrade v ∈ GRADES_NUMERIC := by
  simp only [normalizeNumericGrade]
  split
  · decide
  · split
    · split_ifs with hc
      · exact List.elem_iff.mp hc
      · decide
    · split_ifs with hc
      · exact List.elem_iff.mp hc
      · decide

theorem normalizeNumericGrade_vocab_fixed :
    ∀ g ∈ GRADES_NUMERIC, normalizeNumericGrade g = g := by decide

theorem normalizeNumericGrade_idem (v : Str) :
    normalizeNumericGrade (normalizeNumericGrade v) = normalizeNumericGrade v :=
  normalizeNumericGrade_vocab_fixed _ (normalizeNumericGrade_mem v)

theorem normCardNumber_idem (v : Str) :
    normCardNumber (normCardNumber v) = normCardNumber v := by
  by_cases h : (jsParse (jsTrim v)).isNone = true
  · have h1 : normCardNumber v = [] := by simp [normCardNumber, h]
    rw [h1]
    decide
  · have h1 : normCardNumber v = v := by simp [normCardNumber, h]
    rw [h1]
    exact h1

theorem normDescription_idem (v : Str) :
    normDescription (normDescription v) = normDescription v := by
  by_cases h : (jsTrim v).isEmpty = true
  · have h1 : normDescription v = [] := by simp [normDescription, h]
    rw [h1]
    decide
  · have h1 : normDescription v = v := by simp [normDescription, h]
    rw [h1]
    exact h1

theorem normDate_idem (v : Str) : normDate (normDate v) = normDate v := by
  by_cases hE : (jsTrim v).isEmpty = true
  · have h1 : normDate v = v := by simp [normDate, hE]
    rw [h1]
    exact h1
  · by_cases h8 : ((jsTrim v).filter isDigitCh).length = 8
    · have hdig : ∀ c ∈ (jsTrim v).filter isDigitCh, isDigitCh c = true :=
        fun c hc => (List.mem_filter.mp hc).2
      have hout : normDate v =
          ((jsTrim v).filter isDigitCh).take 2 ++
            '/' :: ((((jsTrim v).filter isDigitCh).drop 2).take 2 ++
              '/' :: ((jsTrim v).filter isDigitCh).drop 4) := by
        simp [normDate, hE, h8]
      have houtmem : ∀ c ∈ normDate v, isDigitCh c = true ∨ c = '/' := by
        intro c hc
        rw [hout] at hc
        rcases List.mem_append.mp hc with h1 | h1
        · exact Or.inl (hdig c ((List.take_sublist 2 _).subset h1))
        · rcases List.mem_cons.mp h1 with h2 | h2
          · right; exact h2
          · rcases List.mem_append.mp h2 with h3 | h3
            · exact Or.inl (hdig c ((List.drop_sublist 2 _).subset
                ((List.take_sublist 2 _).subset h3)))
            · rcases List.mem_cons.mp h3 with h4 | h4
              · right; exact h4
              · exact Or.inl (hdig c ((List.drop_sublist 4 _).subset h4))
      have hws : ∀ c ∈ normDate v, isWsCh c = false := by
        intro c hc
        rcases houtmem c hc with h | h
        · exact digit_not_ws c h
        · subst h; decide
      have htr : jsTrim (normDate v) = normDate v := jsTrim_eq_self _ hws
      have hfA : (((jsTrim v).filter isDigitCh).take 2).filter isDigitCh =
          ((jsTrim v).filter isDigitCh).take 2 :=
        List.filter_eq_self.mpr (fun c hc => hdig c ((List.take_sublist 2 _).subset hc))
      have hfB : ((((jsTrim v).filter isDigitCh).drop 2).take 2).filter isDigitCh =
          (((jsTrim v).filter isDigitCh).drop 2).take 2 :=
        List.filter_eq_self.mpr (fun c hc => hdig c ((List.drop_sublist 2 _).subset
          ((List.take_sublist 2 _).subset hc)))
      have hfC : (((jsTrim v).filter isDigitCh).drop 4).filter isDigitCh =
          ((jsTrim v).filter isDigitCh).drop 4 :=
        List.filter_eq_self.mpr (fun c hc => hdig c ((List.drop_sublist 4 _).subset hc))
      have hreassemble : (((jsTrim v).filter isDigitCh).drop 2).take 2 ++
          ((jsTrim v).filter isDigitCh).drop 4 = ((jsTrim v).filter isDigitCh).drop 2 := by
        rw [show ((jsTrim v).filter isDigitCh).drop 4 =
            (((jsTrim v).filter isDigitCh).drop 2).drop 2 from
          (List.drop_drop 2 2 _).symm]
        exact List.take_append_drop 2 _
      have hfil : (normDate v).filter isDigitCh = (jsTrim v).filter isDigitCh := by
        rw [hout, List.filter_append, List.filter_cons]
        rw [show (isDigitCh '/') = false from by decide]
        simp only [Bool.false_eq_true, if_false]
        rw [List.filter_append, List.filter_cons]
        rw [show (isDigitCh '/') = false from by decide]
        simp only [Bool.false_eq_true, if_false]
        rw [hfA, hfB, hfC, hreassemble]
        exact List.take_append_drop 2 _
      have hne2 : (jsTrim (normDate v)).isEmpty = false := by
        rw [htr, hout]
        cases ((jsTrim v).filter isDigitCh).take 2 with
        | nil => simp [List.isEmpty]
        | cons a t => simp [List.isEmpty]
      have key : ∀ w : Str, jsTrim w = w → w.isEmpty = false →
          w.filter isDigitCh = (jsTrim v).filter isDigitCh →
          normDate w =
            ((jsTrim v).filter isDigitCh).take 2 ++
              '/' :: ((((jsTrim v).filter isDigitCh).drop 2).take 2 ++
                '/' :: ((jsTrim v).filter isDigitCh).drop 4) := by
        intro w h1 h2 h3
        simp only [normDate, h1, h2, h3, h8, Bool.false_eq_true, if_false, if_true]
      rw [htr] at hne2
      rw [key (normDate v) htr hne2 hfil, hout]
    · have h1 : normDate v = v := by simp [normDate, hE, h8]
      rw [h1]
      exact h1

/-- C5: normalization is idempotent — re-running the per-field
normalization on a normalized row (rendered back as a record under the
expected headers) returns the identical row, field by field. -/
theorem normalizeRow_idem (r : List (Str × Str)) :
    normalizeRow (toRaw (normalizeRow r)) = normalizeRow r := by
  set row0 : CanonicalRow := normalizeRow r with hrow0
  have hexpand : normalizeRow (toRaw row0) = CanonicalRow.mk
      (normCardNumber row0.cardNumber) (normDescription row0.description)
      (normYesNo row0.owned) (normRawGrade row0.rawGrade) (normYesNo row0.graded)
      row0.gradingCompany (normalizeNumericGrade row0.grade)
      (normCurrencyCell row0.cost) (normCurrencyCell row0.value)
      (normCurrencyCell row0.targetPrice) (normCurrencyCell row0.salePrice)
      (normDate row0.datePurchased) row0.purchasedFrom row0.imageRefs := rfl
  rw [hexpand]
  have e1 : normCardNumber row0.cardNumber = row0.cardNumber :=
    normCardNumber_idem (recordGet r (cs "Card #"))
  have e2 : normDescription row0.description = row0.description :=
    normDescription_idem (recordGet r (cs "Description"))
  have e3 : normYesNo row0.owned = row0.owned :=
    normYesNo_idem (recordGet r (cs "Owned"))
  have e4 : normRawGrade row0.rawGrade = row0.rawGrade :=
    normRawGrade_idem (recordGet r (cs "Raw Grade"))
  have e5 : normYesNo row0.graded = row0.graded :=
    normYesNo_idem (recordGet r (cs "Graded"))
  have e6 : normalizeNumericGrade row0.grade = row0.grade :=
    normalizeNumericGrade_idem (recordGet r (cs "Grade"))
  have e7 : normCurrencyCell row0.cost = row0.cost :=
    normCurrencyCell_idem (recordGet r (cs "Cost"))
  have e8 : normCurrencyCell row0.value = row0.value :=
    normCurrencyCell_idem (recordGet r (cs "Value"))
  have e9 : normCurrencyCell row0.targetPrice = row0.targetPrice :=
    normCurrencyCell_idem (recordGet r (cs "Target Price"))
  have e10 : normCurrencyCell row0.salePrice = row0.salePrice :=
    normCurrencyCell_idem (recordGet r (cs "Sale Price"))
  have e11 : normDate row0.datePurchased = row0.datePurchased :=
    normDate_idem (recordGet r (cs "Date Purchased"))
  rw [e1, e2, e3, e4, e5, e6, e7, e8, e9, e10, e11]

/-! ### Claim C4: currency sorting -/

theorem keyCmpQ_self (x : Bool × ℚ) : keyCmpQ x x = .eq := by
  unfold keyCmpQ
  rw [if_pos rfl]
  exact compare_eq_iff_eq.mpr rfl

theorem keyCmpQ_gt_iff (x y : Bool × ℚ) :
    keyCmpQ x y = .gt ↔ (x.1 = y.1 ∧ y.2 < x.2) ∨ (x.1 = true ∧ y.1 = false) := by
  unfold keyCmpQ
  by_cases hb : x.1 = y.1
  · rw [if_pos hb, compare_gt_iff_gt]
    constructor
    · intro h
      exact Or.inl ⟨hb, h⟩
    · rintro (⟨-, h⟩ | ⟨h1, h2⟩)
      · exact h
      · rw [h1, h2] at hb
        cases hb
  · rw [if_neg hb]
    cases hx : x.1 <;> cases hy : y.1 <;> simp_all

theorem keyCmpQ_not_gt_iff (x y : Bool × ℚ) :
    keyCmpQ x y ≠ .gt ↔ (x.1 = y.1 ∧ x.2 ≤ y.2) ∨ (x.1 = false ∧ y.1 = true) := by
  rw [Ne, keyCmpQ_gt_iff]
  constructor
  · intro h
    push_neg at h
    obtain ⟨h1, h2⟩ := h
    by_cases hb : x.1 = y.1
    · exact Or.inl ⟨hb, h1 hb⟩
    · right
      cases hx : x.1
      · cases hy : y.1
        · rw [hx, hy] at hb; simp at hb
        · exact ⟨rfl, rfl⟩
      · cases hy : y.1
        · exact absurd hy (h2 hx)
        · rw [hx, hy] at hb; simp at hb
  · rintro (⟨hb, hle⟩ | ⟨h1, h2⟩)
    · rintro (⟨-, hlt⟩ | ⟨ht, hf⟩)
      · linarith
      · rw [ht, hf] at hb; cases hb
    · rintro (⟨hb, -⟩ | ⟨ht, -⟩)
      · rw [h1, h2] at hb; cases hb
      · rw [h1] at ht; cases ht

theorem keyCmpQ_trans {x y z : Bool × ℚ} (h1 : keyCmpQ x y ≠ .gt)
    (h2 : keyCmpQ y z ≠ .gt) : keyCmpQ x z ≠ .gt := by
  rw [keyCmpQ_not_gt_iff] at h1 h2 ⊢
  rcases h1 with ⟨e1, l1⟩ | ⟨f1, t1⟩ <;> rcases h2 with ⟨e2, l2⟩ | ⟨f2, t2⟩
  · exact Or.inl ⟨e1.trans e2, le_trans l1 l2⟩
  · exact Or.inr ⟨e1.trans f2, t2⟩
  · exact Or.inr ⟨f1, e2 ▸ t1⟩
  · rw [t1] at f2; cases f2

theorem keyCmpQ_gt_asymm {x y : Bool × ℚ} (h : keyCmpQ x y = .gt) :
    keyCmpQ y x ≠ .gt := by
  rw [keyCmpQ_gt_iff] at h
  rw [keyCmpQ_not_gt_iff]
  rcases h with ⟨hb, hlt⟩ | ⟨ht, hf⟩
  · exact Or.inl ⟨hb.symm, le_of_lt hlt⟩
  · exact Or.inr ⟨hf, ht⟩

theorem keyCmpQ_gt_ne {x y : Bool × ℚ} (h : keyCmpQ x y = .gt) : x ≠ y := by
  intro he
  rw [he, keyCmpQ_self] at h
  cases h

theorem insertCmp_congr {α : Type} (cmp cmp2 : α → α → Ordering) (a : α) (l : List α)
    (h : ∀ b ∈ l, cmp a b = cmp2 a b) : insertCmp cmp a l = insertCmp cmp2 a l := by
  induction l with
  | nil => rfl
  | cons b t ih =>
    rw [insertCmp, insertCmp, h b (by simp),
      ih (fun x hx => h x (List.mem_cons_of_mem b hx))]

theorem sortByCmp_congr {α : Type} (cmp cmp2 : α → α → Ordering) (l : List α)
    (h : ∀ a ∈ l, ∀ b ∈ l, cmp a b = cmp2 a b) :
    sortByCmp cmp l = sortByCmp cmp2 l := by
  induction l with
  | nil => rfl
  | cons a t ih =>
    rw [sortByCmp, sortByCmp,
      ih (fun x hx y hy => h x (List.mem_cons_of_mem a hx) y (List.mem_cons_of_mem a hy))]
    refine insertCmp_congr cmp cmp2 a _ (fun b hb => ?_)
    have hbt : b ∈ t := (sortByCmp_perm cmp2 t).mem_iff.mp hb
    exact h a (by simp) b (List.mem_cons_of_mem a hbt)

theorem insertCmp_key_sorted {α : Type} (k : α → Bool × ℚ) (a : α) (l : List α)
    (hl : l.Pairwise (fun x y => keyCmpQ (k x) (k y) ≠ .gt)) :
    (insertCmp (fun x y => keyCmpQ (k x) (k y)) a l).Pairwise
      (fun x y => keyCmpQ (k x) (k y) ≠ .gt) := by
  induction l with
  | nil => simp [insertCmp]
  | cons b t ih =>
    rw [List.pairwise_cons] at hl
    obtain ⟨hbt, htp⟩ := hl
    rw [insertCmp]
    by_cases hab : keyCmpQ (k a) (k b) = .gt
    · rw [if_pos hab]
      refine List.Pairwise.cons (fun y hy => ?_) (ih htp)
      have hy2 : y ∈ a :: t := (insertCmp_perm _ a t).mem_iff.mp hy
      rcases List.mem_cons.mp hy2 with hy1 | hy1
      · rw [hy1]
        exact keyCmpQ_gt_asymm hab
      · exact hbt y hy1
    · rw [if_neg hab]
      refine List.Pairwise.cons (fun y hy => ?_) (List.Pairwise.cons hbt htp)
      rcases List.mem_cons.mp hy with hy1 | hy1
      · rw [hy1]
        exact hab
      · exact keyCmpQ_trans hab (hbt y hy1)

theorem sortByCmp_key_sorted {α : Type} (k : α → Bool × ℚ) (l : List α) :
    (sortByCmp (fun x y => keyCmpQ (k x) (k y)) l).Pairwise
      (fun x y => keyCmpQ (k x) (k y) ≠ .gt) := by
  induction l with
  | nil => simp [sortByCmp]
  | cons a t ih => exact insertCmp_key_sorted k a _ ih

theorem insertCmp_key_filter {α : Type} (k : α → Bool × ℚ) (v : Bool × ℚ)
    (a : α) (l : List α) :
    (insertCmp (fun x y => keyCmpQ (k x) (k y)) a l).filter (fun x => decide (k x = v)) =
      if k a = v then a :: l.filter (fun x => decide (k x = v))
      else l.filter (fun x => decide (k x = v)) := by
  induction l with
  | nil => by_cases h : k a = v <;> simp [insertCmp, h]
  | cons b t ih =>
    rw [insertCmp]
    by_cases hab : keyCmpQ (k a) (k b) = .gt
    · rw [if_pos hab, List.filter_cons, List.filter_cons, ih]
      by_cases hav : k a = v
      · have hbv : ¬ (k b = v) := fun he => keyCmpQ_gt_ne hab (hav.trans he.symm)
        simp [hav, hbv]
      · simp [hav]
    · rw [if_neg hab, List.filter_cons]
      by_cases hav : k a = v
      · simp [hav]
      · simp [hav]

theorem sortByCmp_key_filter {α : Type} (k : α → Bool × ℚ) (v : Bool × ℚ) (l : List α) :
    (sortByCmp (fun x y => keyCmpQ (k x) (k y)) l).filter (fun x => decide (k x = v)) =
      l.filter (fun x => decide (k x = v)) := by
  induction l with
  | nil => rfl
  | cons a t ih =>
    rw [sortByCmp, insertCmp_key_filter, List.filter_cons]
    by_cases hav : k a = v
    · simp [hav, ih]
    · simp [hav, ih]

theorem Mag.val_nonneg (d : Mag) : 0 ≤ d.val := by
  unfold Mag.val
  positivity

theorem Mag.val_eq_zero_iff (d : Mag) : d.val = 0 ↔ d.man = 0 := by
  unfold Mag.val
  constructor
  · intro h
    rcases mul_eq_zero.mp h with h1 | h1
    · exact_mod_cast h1
    · exact absurd h1 (zpow_ne_zero _ (by norm_num))
  · intro h
    rw [h]
    simp

theorem Mag.val_scale (a : Mag) (e : ℤ) (he : e ≤ a.ex) :
    a.val = ((a.man * 10 ^ (a.ex - e).toNat : ℕ) : ℚ) * 10 ^ e := by
  unfold Mag.val
  push_cast
  rw [mul_assoc]
  congr 1
  rw [← zpow_natCast (10 : ℚ) (a.ex - e).toNat, ← zpow_add₀ (by norm_num : (10 : ℚ) ≠ 0)]
  congr 1
  omega

theorem Mag.cmp_spec (a b : Mag) :
    (Mag.cmp a b = .lt ↔ a.val < b.val) ∧ (Mag.cmp a b = .eq ↔ a.val = b.val) ∧
    (Mag.cmp a b = .gt ↔ b.val < a.val) := by
  have hva := Mag.val_scale a (min a.ex b.ex) (min_le_left _ _)
  have hvb := Mag.val_scale b (min a.ex b.ex) (min_le_right _ _)
  have hpow : (0 : ℚ) < 10 ^ (min a.ex b.ex) := by positivity
  unfold Mag.cmp
  refine ⟨?_, ?_, ?_⟩
  · rw [Nat.compare_eq_lt, hva, hvb, mul_lt_mul_right hpow, Nat.cast_lt]
  · rw [Nat.compare_eq_eq, hva, hvb]
    constructor
    · intro h
      rw [h]
    · intro h
      exact_mod_cast mul_right_cancel₀ (ne_of_gt hpow) h
  · rw [Nat.compare_eq_gt, hva, hvb, mul_lt_mul_right hpow, Nat.cast_lt]

theorem JsNum.cmp_fin_spec (s1 s2 : Bool) (d1 d2 : Mag) :
    (JsNum.cmp (.fin s1 d1) (.fin s2 d2) = .lt ↔
      (JsNum.fin s1 d1).val < (JsNum.fin s2 d2).val) ∧
    (JsNum.cmp (.fin s1 d1) (.fin s2 d2) = .eq ↔
      (JsNum.fin s1 d1).val = (JsNum.fin s2 d2).val) ∧
    (JsNum.cmp (.fin s1 d1) (.fin s2 d2) = .gt ↔
      (JsNum.fin s2 d2).val < (JsNum.fin s1 d1).val) := by
  obtain ⟨m1l, m1e, m1g⟩ := Mag.cmp_spec d1 d2
  obtain ⟨m2l, m2e, m2g⟩ := Mag.cmp_spec d2 d1
  by_cases h1 : d1.man = 0 <;> by_cases h2 : d2.man = 0
  · have z1 : (JsNum.fin s1 d1).val = 0 := by
      simp [JsNum.val, (Mag.val_eq_zero_iff d1).mpr h1]
    have z2 : (JsNum.fin s2 d2).val = 0 := by
      simp [JsNum.val, (Mag.val_eq_zero_iff d2).mpr h2]
    have hcmp : JsNum.cmp (.fin s1 d1) (.fin s2 d2) = .eq := by
      simp [JsNum.cmp, h1, h2]
    rw [hcmp, z1, z2]
    exact ⟨iff_of_false (by decide) (lt_irrefl 0),
      iff_of_true rfl rfl, iff_of_false (by decide) (lt_irrefl 0)⟩
  · have z1 : (JsNum.fin s1 d1).val = 0 := by
      simp [JsNum.val, (Mag.val_eq_zero_iff d1).mpr h1]
    have p2 : 0 < d2.val :=
      lt_of_le_of_ne (Mag.val_nonneg d2) (fun he => h2 ((Mag.val_eq_zero_iff d2).mp he.symm))
    have hcmp : JsNum.cmp (.fin s1 d1) (.fin s2 d2) = if s2 then .gt else .lt := by
      simp [JsNum.cmp, h1, h2]
    cases s2
    · have v2 : (JsNum.fin false d2).val = d2.val := by simp [JsNum.val]
      rw [hcmp, if_neg (by simp), z1, v2]
      exact ⟨iff_of_true rfl p2, iff_of_false (by decide) (by linarith),
        iff_of_false (by decide) (by linarith)⟩
    · have v2 : (JsNum.fin true d2).val = -d2.val := by simp [JsNum.val]
      rw [hcmp, if_pos rfl, z1, v2]
      exact ⟨iff_of_false (by decide) (by linarith),
        iff_of_false (by decide) (by linarith), iff_of_true rfl (by linarith)⟩
  · have z2 : (JsNum.fin s2 d2).val = 0 := by
      simp [JsNum.val, (Mag.val_eq_zero_iff d2).mpr h2]
    have p1 : 0 < d1.val :=
      lt_of_le_of_ne (Mag.val_nonneg d1) (fun he => h1 ((Mag.val_eq_zero_iff d1).mp he.symm))
    have hcmp : JsNum.cmp (.fin s1 d1) (.fin s2 d2) = if s1 then .lt else .gt := by
      simp [JsNum.cmp, h1, h2]
    cases s1
    · have v1 : (JsNum.fin false d1).val = d1.val := by simp [JsNum.val]
      rw [hcmp, if_neg (by simp), z2, v1]
      exact ⟨iff_of_false (by decide) (by linarith),
        iff_of_false (by decide) (by linarith), iff_of_true rfl p1⟩
    · have v1 : (JsNum.fin true d1).val = -d1.val := by simp [JsNum.val]
      rw [hcmp, if_pos rfl, z2, v1]
      exact ⟨iff_of_true rfl (by linarith), iff_of_false (by decide) (by linarith),
        iff_of_false (by decide) (by linarith)⟩
  · have p1 : 0 < d1.val :=
      lt_of_le_of_ne (Mag.val_nonneg d1) (fun he => h1 ((Mag.val_eq_zero_iff d1).mp he.symm))
    have p2 : 0 < d2.val :=
      lt_of_le_of_ne (Mag.val_nonneg d2) (fun he => h2 ((Mag.val_eq_zero_iff d2).mp he.symm))
    cases s1 <;> cases s2
    · have hcmp : JsNum.cmp (.fin false d1) (.fin false d2) = Mag.cmp d1 d2 := by
        simp [JsNum.cmp, h1, h2]
      have v1 : (JsNum.fin false d1).val = d1.val := by simp [JsNum.val]
      have v2 : (JsNum.fin false d2).val = d2.val := by simp [JsNum.val]
      rw [hcmp, v1, v2]
      exact ⟨m1l, m1e, m1g⟩
    · have hcmp : JsNum.cmp (.fin false d1) (.fin true d2) = .gt := by
        simp [JsNum.cmp, h1, h2]
      have v1 : (JsNum.fin false d1).val = d1.val := by simp [JsNum.val]
      have v2 : (JsNum.fin true d2).val = -d2.val := by simp [JsNum.val]
      rw [hcmp, v1, v2]
      exact ⟨iff_of_false (by decide) (by linarith),
        iff_of_false (by decide) (by linarith), iff_of_true rfl (by linarith)⟩
    · have hcmp : JsNum.cmp (.fin true d1) (.fin false d2) = .lt := by
        simp [JsNum.cmp, h1, h2]
      have v1 : (JsNum.fin true d1).val = -d1.val := by simp [JsNum.val]
      have v2 : (JsNum.fin false d2).val = d2.val := by simp [JsNum.val]
      rw [hcmp, v1, v2]
      exact ⟨iff_of_true rfl (by linarith), iff_of_false (by decide) (by linarith),
        iff_of_false (by decide) (by linarith)⟩
    · have hcmp : JsNum.cmp (.fin true d1) (.fin true d2) = Mag.cmp d2 d1 := by
        simp [JsNum.cmp, h1, h2]
      have v1 : (JsNum.fin true d1).val = -d1.val := by simp [JsNum.val]
      have v2 : (JsNum.fin true d2).val = -d2.val := by simp [JsNum.val]
      rw [hcmp, v1, v2]
      refine ⟨m2l.trans ⟨fun h => by linarith, fun h => by linarith⟩,
        m2e.trans ⟨fun h => by linarith, fun h => by linarith⟩,
        m2g.trans ⟨fun h => by linarith, fun h => by linarith⟩⟩

theorem finVal_ne_zero {s : Bool} {d : Mag} (h : d.man ≠ 0) :
    (JsNum.fin s d).val ≠ 0 := by
  have hd : d.val ≠ 0 := fun he => h ((Mag.val_eq_zero_iff d).mp he)
  cases s <;> simp [JsNum.val, hd]

theorem finVal_zero {s : Bool} {d : Mag} (h : d.man = 0) :
    (JsNum.fin s d).val = 0 := by
  simp [JsNum.val, (Mag.val_eq_zero_iff d).mpr h]

theorem curValOf_shape (field : Header) (r : CanonicalRow) (h : CurCellOk field r) :
    curValOf field r = none ∨
      ∃ sg d, curValOf field r = some (some (JsNum.fin sg d)) := by
  by_cases he : stripCurrency (getField r field) = []
  · left
    simp [curValOf, he]
  · right
    rcases h with h | h
    · exact absurd h he
    · cases hp : jsParse (stripCurrency (getField r field)) with
      | none => rw [hp] at h; simp at h
      | some n =>
        cases n with
        | fin sg d =>
          refine ⟨sg, d, ?_⟩
          simp [curValOf, List.isEmpty_iff, he, hp]
        | inf b => exact absurd (jsParse_inf_mem hp) (strip_no_I _)

theorem jsLtOpt_none_some (n : JsNum) :
    jsLtOpt none (some (some n)) =
      decide (JsNum.cmp (.fin false ⟨0, 0⟩) n = .lt) := rfl

theorem jsLtOpt_some_none (n : JsNum) :
    jsLtOpt (some (some n)) none =
      decide (JsNum.cmp n (.fin false ⟨0, 0⟩) = .lt) := rfl

theorem jsLtOpt_some_some (m n : JsNum) :
    jsLtOpt (some (some m)) (some (some n)) =
      decide (JsNum.cmp m n = .lt) := rfl

theorem cmpRows_eq_keyCmp (field : Header) (dir : SortDir) (a b : CanonicalRow × ℕ)
    (hf : CURRENCY_FIELDS.contains field = true)
    (ha : CurCellOk field a.1) (hb : CurCellOk field b.1) :
    cmpRows field dir a b = keyCmpQ (curKey field dir a.1) (curKey field dir b.1) := by
  have hfm : field ∈ CURRENCY_FIELDS := List.elem_iff.mp hf
  have hc00 : compare (0 : ℚ) 0 = .eq := compare_eq_iff_eq.mpr rfl
  rcases curValOf_shape field a.1 ha with hA | ⟨sa, da, hA⟩ <;>
    rcases curValOf_shape field b.1 hb with hB | ⟨sb, db, hB⟩
  · have hKa : curKey field dir a.1 = (true, 0) := by
      simp [curKey, curSortClass, curQ, hA]
    have hKb : curKey field dir b.1 = (true, 0) := by
      simp [curKey, curSortClass, curQ, hB]
    rw [hKa, hKb]
    simp [cmpRows, hf, hfm, hA, hB, curEmptyZero, keyCmpQ, hc00]
  · have hKa : curKey field dir a.1 = (true, 0) := by
      simp [curKey, curSortClass, curQ, hA]
    by_cases hz : db.man = 0
    · have hKb : curKey field dir b.1 = (true, 0) := by
        simp [curKey, curSortClass, curQ, hB, finVal_zero hz]
      have hc1 : JsNum.cmp (.fin false ⟨0, 0⟩) (.fin sb db) = .eq := by
        simp [JsNum.cmp, hz]
      have hc2 : JsNum.cmp (.fin sb db) (.fin false ⟨0, 0⟩) = .eq := by
        simp [JsNum.cmp, hz]
      rw [hKa, hKb]
      simp [cmpRows, hf, hfm, hA, hB, curEmptyZero, jsIsZero, hz,
        jsLtOpt_none_some, jsLtOpt_some_none, hc1, hc2, keyCmpQ, hc00]
    · have hKb : curKey field dir b.1 =
          (false, if dir = .asc then (JsNum.fin sb db).val
            else -(JsNum.fin sb db).val) := by
        simp [curKey, curSortClass, curQ, hB, finVal_ne_zero hz]
      rw [hKa, hKb]
      simp [cmpRows, hf, hfm, hA, hB, curEmptyZero, jsIsZero, hz, keyCmpQ]
  · have hKb : curKey field dir b.1 = (true, 0) := by
      simp [curKey, curSortClass, curQ, hB]
    by_cases hz : da.man = 0
    · have hKa : curKey field dir a.1 = (true, 0) := by
        simp [curKey, curSortClass, curQ, hA, finVal_zero hz]
      have hc1 : JsNum.cmp (.fin sa da) (.fin false ⟨0, 0⟩) = .eq := by
        simp [JsNum.cmp, hz]
      have hc2 : JsNum.cmp (.fin false ⟨0, 0⟩) (.fin sa da) = .eq := by
        simp [JsNum.cmp, hz]
      rw [hKa, hKb]
      simp [cmpRows, hf, hfm, hA, hB, curEmptyZero, jsIsZero, hz,
        jsLtOpt_none_some, jsLtOpt_some_none, hc1, hc2, keyCmpQ, hc00]
    · have hKa : curKey field dir a.1 =
          (false, if dir = .asc then (JsNum.fin sa da).val
            else -(JsNum.fin sa da).val) := by
        simp [curKey, curSortClass, curQ, hA, finVal_ne_zero hz]
      rw [hKa, hKb]
      simp [cmpRows, hf, hfm, hA, hB, curEmptyZero, jsIsZero, hz, keyCmpQ]
  · by_cases hza : da.man = 0 <;> by_cases hzb : db.man = 0
    · have hKa : curKey field dir a.1 = (true, 0) := by
        simp [curKey, curSortClass, curQ, hA, finVal_zero hza]
      have hKb : curKey field dir b.1 = (true, 0) := by
        simp [curKey, curSortClass, curQ, hB, finVal_zero hzb]
      have hc1 : JsNum.cmp (.fin sa da) (.fin sb db) = .eq := by
        simp [JsNum.cmp, hza, hzb]
      have hc2 : JsNum.cmp (.fin sb db) (.fin sa da) = .eq := by
        simp [JsNum.cmp, hza, hzb]
      rw [hKa, hKb]
      simp [cmpRows, hf, hfm, hA, hB, curEmptyZero, jsIsZero, hza, hzb,
        jsLtOpt_some_some, hc1, hc2, keyCmpQ, hc00]
    · have hKa : curKey field dir a.1 = (true, 0) := by
        simp [curKey, curSortClass, curQ, hA, finVal_zero hza]
      have hKb : curKey field dir b.1 =
          (false, if dir = .asc then (JsNum.fin sb db).val
            else -(JsNum.fin sb db).val) := by
        simp [curKey, curSortClass, curQ, hB, finVal_ne_zero hzb]
      rw [hKa, hKb]
      simp [cmpRows, hf, hfm, hA, hB, curEmptyZero, jsIsZero, hza, hzb, keyCmpQ]
    · have hKa : curKey field dir a.1 =
          (false, if dir = .asc then (JsNum.fin sa da).val
            else -(JsNum.fin sa da).val) := by
        simp [curKey, curSortClass, curQ, hA, finVal_ne_zero hza]
      have hKb : curKey field dir b.1 = (true, 0) := by
        simp [curKey, curSortClass, curQ, hB, finVal_zero hzb]
      rw [hKa, hKb]
      simp [cmpRows, hf, hfm, hA, hB, curEmptyZero, jsIsZero, hza, hzb, keyCmpQ]
    · obtain ⟨cab_lt, cab_eq, cab_gt⟩ := JsNum.cmp_fin_spec sa sb da db
      obtain ⟨cba_lt, cba_eq, cba_gt⟩ := JsNum.cmp_fin_spec sb sa db da
      have hKa : curKey field dir a.1 =
          (false, if dir = .asc then (JsNum.fin sa da).val
            else -(JsNum.fin sa da).val) := by
        simp [curKey, curSortClass, curQ, hA, finVal_ne_zero hza]
      have hKb : curKey field dir b.1 =
          (false, if dir = .asc then (JsNum.fin sb db).val
            else -(JsNum.fin sb db).val) := by
        simp [curKey, curSortClass, curQ, hB, finVal_ne_zero hzb]
      rw [hKa, hKb]
      rcases lt_trichotomy ((JsNum.fin sa da).val) ((JsNum.fin sb db).val)
        with hlt | heq | hgt
      · have h1 : JsNum.cmp (.fin sa da) (.fin sb db) = .lt := cab_lt.mpr hlt
        cases dir
        · have hc : compare ((JsNum.fin sa da).val) ((JsNum.fin sb db).val) = .lt :=
            compare_lt_iff_lt.mpr hlt
          simp [cmpRows, hf, hfm, hA, hB, curEmptyZero, jsIsZero, hza, hzb,
            jsLtOpt_some_some, h1, keyCmpQ, hc]
        · have hc : compare (-(JsNum.fin sa da).val) (-(JsNum.fin sb db).val) = .gt :=
            compare_gt_iff_gt.mpr (by linarith)
          simp [cmpRows, hf, hfm, hA, hB, curEmptyZero, jsIsZero, hza, hzb,
            jsLtOpt_some_some, h1, keyCmpQ, hc]
      · have h1 : JsNum.cmp (.fin sa da) (.fin sb db) = .eq := cab_eq.mpr heq
        have h2 : JsNum.cmp (.fin sb db) (.fin sa da) = .eq := cba_eq.mpr heq.symm
        cases dir
        · have hc : compare ((JsNum.fin sa da).val) ((JsNum.fin sb db).val) = .eq :=
            compare_eq_iff_eq.mpr heq
          simp [cmpRows, hf, hfm, hA, hB, curEmptyZero, jsIsZero, hza, hzb,
            jsLtOpt_some_some, h1, h2, keyCmpQ, hc]
        · have hc : compare (-(JsNum.fin sa da).val) (-(JsNum.fin sb db).val) = .eq :=
            compare_eq_iff_eq.mpr (by rw [heq])
          simp [cmpRows, hf, hfm, hA, hB, curEmptyZero, jsIsZero, hza, hzb,
            jsLtOpt_some_some, h1, h2, keyCmpQ, hc]
      · have h1 : JsNum.cmp (.fin sa da) (.fin sb db) = .gt := cab_gt.mpr hgt
        have h2 : JsNum.cmp (.fin sb db) (.fin sa da) = .lt := cba_lt.mpr hgt
        cases dir
        · have hc : compare ((JsNum.fin sa da).val) ((JsNum.fin sb db).val) = .gt :=
            compare_gt_iff_gt.mpr hgt
          simp [cmpRows, hf, hfm, hA, hB, curEmptyZero, jsIsZero, hza, hzb,
            jsLtOpt_some_some, h1, h2, keyCmpQ, hc]
        · have hc : compare (-(JsNum.fin sa da).val) (-(JsNum.fin sb db).val) = .lt :=
            compare_lt_iff_lt.mpr (by linarith)
          simp [cmpRows, hf, hfm, hA, hB, curEmptyZero, jsIsZero, hza, hzb,
            jsLtOpt_some_some, h1, h2, keyCmpQ, hc]

/-! ### Claim C4: sorting by a currency field -/

/-- C4 counterexample: sorting ascending by `Cost` over rows whose middle
cost cell strips to unparseable text (`NaN`) leaves the row of value 5
before the row of value 3, because every comparison against the `NaN`
row reports a tie; the claimed numeric ordering among the non-blank,
non-zero rows therefore fails. -/
theorem currency_sort_misorders_positive_rows :
    ¬ ((displayRows c4rows false (some .cost) .asc).Pairwise (fun p q =>
        ∀ u v, curSortClass .cost p.1 = some u →
          curSortClass .cost q.1 = some v → u ≤ v)) := by
  intro h
  have hout : displayRows c4rows false (some .cost) .asc =
      [(rowWithCost (cs "$5.00"), 0), (rowWithCost (cs "1.2.3"), 1),
        (rowWithCost (cs "$3.00"), 2)] := by decide
  rw [hout, List.pairwise_cons] at h
  have h53 := h.1 (rowWithCost (cs "$3.00"), 2)
    (List.mem_cons_of_mem _ (List.mem_cons_self _ _))
  have h5 : curSortClass .cost (rowWithCost (cs "$5.00")) = some 5 := by
    have hv : curValOf .cost (rowWithCost (cs "$5.00")) =
        some (some (.fin false ⟨500, -2⟩)) := by decide
    have hval : (JsNum.fin false (⟨500, -2⟩ : Mag)).val = 5 := by
      simp only [JsNum.val, Mag.val, Bool.false_eq_true, if_false]
      rw [zpow_neg]
      norm_num
    simp [curSortClass, curQ, hv, hval]
  have h3 : curSortClass .cost (rowWithCost (cs "$3.00")) = some 3 := by
    have hv : curValOf .cost (rowWithCost (cs "$3.00")) =
        some (some (.fin false ⟨300, -2⟩)) := by decide
    have hval : (JsNum.fin false (⟨300, -2⟩ : Mag)).val = 3 := by
      simp only [JsNum.val, Mag.val, Bool.false_eq_true, if_false]
      rw [zpow_neg]
      norm_num
    simp [curSortClass, curQ, hv, hval]
  have := h53 5 3 h5 h3
  norm_num at this

/-- C4 amended: sorting by a currency field, provided every cell of the
sorted rows either strips to blank or parses as a number (no `NaN`
cells): (1) once a blank-or-zero row appears, every later row is also
blank-or-zero, so blank-or-zero rows are placed after all rows with a
nonzero parsed value regardless of direction; (2) among the remaining
rows the parsed values are ordered following the direction; (3) the sort
is stable: rows of any fixed key class keep their original relative
order from the filtered view. -/
theorem currency_sort_characterization (field : Header) (dir : SortDir)
    (rows : List CanonicalRow) (needed : Bool)
    (hf : CURRENCY_FIELDS.contains field = true)
    (hok : ∀ r ∈ rows, CurCellOk field r) :
    ((displayRows rows needed (some field) dir).Pairwise (fun p q =>
        curSortClass field p.1 = none → curSortClass field q.1 = none)) ∧
    ((displayRows rows needed (some field) dir).Pairwise (fun p q =>
        ∀ u v, curSortClass field p.1 = some u →
          curSortClass field q.1 = some v →
          (if dir = .asc then u ≤ v else v ≤ u))) ∧
    (∀ v : Option ℚ,
      (displayRows rows needed (some field) dir).filter
          (fun p => decide (curSortClass field p.1 = v)) =
        (filteredPairs rows needed).filter
          (fun p => decide (curSortClass field p.1 = v))) := by
  have hmem : ∀ p ∈ filteredPairs rows needed, CurCellOk field p.1 := by
    intro p hp
    apply hok
    have hpw : p ∈ pairWithIdx rows := by
      unfold filteredPairs at hp
      split_ifs at hp
      · exact List.mem_of_mem_filter hp
      · exact hp
    unfold pairWithIdx at hpw
    rw [List.mem_map] at hpw
    obtain ⟨e, he, hpe⟩ := hpw
    have h2 : rows[e.1]? = some e.2 := List.mem_enum_iff_getElem?.mp he
    rw [← hpe]
    exact List.getElem?_mem h2
  have hout : displayRows rows needed (some field) dir =
      sortByCmp (fun x y => keyCmpQ (curKey field dir x.1) (curKey field dir y.1))
        (filteredPairs rows needed) := by
    show sortByCmp (cmpRows field dir) (filteredPairs rows needed) = _
    exact sortByCmp_congr _ _ _
      (fun a hA b hB => cmpRows_eq_keyCmp field dir a b hf (hmem a hA) (hmem b hB))
  have hsorted := sortByCmp_key_sorted (fun p : CanonicalRow × ℕ => curKey field dir p.1)
    (filteredPairs rows needed)
  refine ⟨?_, ?_, ?_⟩
  · rw [hout]
    refine hsorted.imp ?_
    intro x y hxy hxnone
    by_contra hqy
    cases hcy : curSortClass field y.1 with
    | none => exact hqy hcy
    | some w =>
      apply hxy
      have hkx : curKey field dir x.1 = (true, 0) := by
        simp [curKey, hxnone]
      have hky : curKey field dir y.1 = (false, if dir = .asc then w else -w) := by
        simp [curKey, hcy]
      rw [hkx, hky]
      simp [keyCmpQ]
  · rw [hout]
    refine hsorted.imp ?_
    intro x y hxy u v hu hv
    have hkx : curKey field dir x.1 = (false, if dir = .asc then u else -u) := by
      simp [curKey, hu]
    have hky : curKey field dir y.1 = (false, if dir = .asc then v else -v) := by
      simp [curKey, hv]
    rw [hkx, hky] at hxy
    have hle : (if dir = .asc then u else -u) ≤ (if dir = .asc then v else -v) := by
      by_contra hlt
      push_neg at hlt
      exact hxy (by simp [keyCmpQ, compare_gt_iff_gt.mpr hlt])
    cases dir
    · simpa using hle
    · simp at hle ⊢
      linarith
  · intro v
    rw [hout]
    have hiff : ∀ p : CanonicalRow × ℕ, (curSortClass field p.1 = v) ↔
        (curKey field dir p.1 = (match v with
          | none => ((true : Bool), (0 : ℚ))
          | some q => (false, if dir = .asc then q else -q))) := by
      intro p
      cases hc : curSortClass field p.1 with
      | none =>
        have hkp : curKey field dir p.1 = (true, 0) := by simp [curKey, hc]
        cases v with
        | none => simp [hkp]
        | some q => simp [hkp]
      | some w =>
        have hkp : curKey field dir p.1 = (false, if dir = .asc then w else -w) := by
          simp [curKey, hc]
        cases v with
        | none => simp [hkp]
        | some q =>
          simp only [hkp, Option.some_inj, Prod.mk.injEq, true_and]
          cases dir <;> simp
    have hfeq : (fun p : CanonicalRow × ℕ => decide (curSortClass field p.1 = v)) =
        (fun p => decide (curKey field dir p.1 = (match v with
          | none => ((true : Bool), (0 : ℚ))
          | some q => (false, if dir = .asc then q else -q)))) :=
      funext fun p => decide_eq_decide.mpr (hiff p)
    rw [hfeq]
    exact sortByCmp_key_filter (fun p : CanonicalRow × ℕ => curKey field dir p.1) _ _

/-- C4 witness: the characterization applied to the four-cost instance
(blank, `$0.00`, `$5.00`, `$10.00`) sorted descending by `Cost`. -/
theorem currency_sort_characterization_witness :
    ((displayRows [rowWithCost (cs ""), rowWithCost (cs "$0.00"),
        rowWithCost (cs "$5.00"), rowWithCost (cs "$10.00")] false
        (some .cost) .desc).Pairwise (fun p q =>
        curSortClass .cost p.1 = none → curSortClass .cost q.1 = none)) ∧
    ((displayRows [rowWithCost (cs ""), rowWithCost (cs "$0.00"),
        rowWithCost (cs "$5.00"), rowWithCost (cs "$10.00")] false
        (some .cost) .desc).filter
          (fun p => decide (curSortClass .cost p.1 = none)) =
      (filteredPairs [rowWithCost (cs ""), rowWithCost (cs "$0.00"),
        rowWithCost (cs "$5.00"), rowWithCost (cs "$10.00")] false).filter
          (fun p => decide (curSortClass .cost p.1 = none))) := by
  have h := currency_sort_characterization .cost .desc
    [rowWithCost (cs ""), rowWithCost (cs "$0.00"),
      rowWithCost (cs "$5.00"), rowWithCost (cs "$10.00")] false
    (by decide) (by decide)
  exact ⟨h.1, h.2.2 none⟩
